import Mathlib

/-!
Verification of the DeviceHive binary gateway (`devicehive/gateway/binary.py`).

The development shallowly embeds the framer (BinaryPacketBuffer, BinaryMessage),
the schema-driven codec (BinaryFormatter) and the dynamic schema synthesis
(AutoClassFactory / BinaryFactory) as executable Lean functions over `List Nat`
byte sequences, and proves or refutes the specified properties.
-/

namespace DeviceHive

/-! ## Constants (module-level constants of the source) -/

def PACKET_SIGNATURE : Nat := 0xc5c3

def PACKET_SIGNATURE_HI : Nat := 0xc5

def PACKET_SIGNATURE_LO : Nat := 0xc3

def EMPTY_PACKET_LENGTH : Nat := 9

/-! ## BinaryPacketBuffer -/

/-- Embeds `BinaryPacketBuffer._skip_to_next_packet`.  The buffer `self._data`
is the argument, the mutated buffer is the result.  `l.findIdx (· == 0xc5)`
models `self._data.index(PACKET_SIGNATURE_HI)`, guarded by the membership test
that models the `try/except ValueError` (on `ValueError` the buffer is set
to `[]`).  Note the source handles `idx == data_len - 1` and
`idx < data_len - 2` but has no branch for `idx == data_len - 2`, in which
case the buffer is left unchanged. -/
def skip_to_next_packet (l : List Nat) : List Nat :=
  if h1 : 1 < l.length then
    if l.head? = some PACKET_SIGNATURE_HI ∧ l.get? 1 = some PACKET_SIGNATURE_LO then
      l
    else if PACKET_SIGNATURE_HI ∈ l then
      let idx := l.findIdx (· == PACKET_SIGNATURE_HI)
      if idx = l.length - 1 then
        l.drop idx
      else if idx < l.length - 2 then
        if l.get? (idx + 1) = some PACKET_SIGNATURE_LO then
          l.drop idx
        else
          skip_to_next_packet (l.drop (idx + 1))
      else
        l
    else
      []
  else if l.length = 1 ∧ l.head? ≠ some PACKET_SIGNATURE_HI then
    []
  else
    l
termination_by l.length
decreasing_by
  simp only [List.length_drop]
  omega

/-- Embeds `BinaryPacketBuffer.append`: extend the data, then resynchronize. -/
def buffer_append (buf chunk : List Nat) : List Nat :=
  skip_to_next_packet (buf ++ chunk)

/-- The PacketBuffer invariant of spec §3: with at least two bytes the buffer
starts with the full signature, with exactly one byte it is `[0xC5]`,
otherwise it is empty. -/
def buffer_invariant (l : List Nat) : Prop :=
  if 2 ≤ l.length then l.take 2 = [PACKET_SIGNATURE_HI, PACKET_SIGNATURE_LO]
  else if l.length = 1 then l = [PACKET_SIGNATURE_HI]
  else l = []

instance buffer_invariant_decidable (l : List Nat) : Decidable (buffer_invariant l) := by
  unfold buffer_invariant
  infer_instance

/-- Fuel-indexed variant of `skip_to_next_packet`; `none` means the fuel was
exhausted before the recursion terminated.  Used to state that the
resynchronization procedure is total: depth `|buf| + 1` always suffices. -/
def skip_fuel : Nat → List Nat → Option (List Nat)
  | 0, _ => none
  | fuel + 1, l =>
    if 1 < l.length then
      if l.head? = some PACKET_SIGNATURE_HI ∧ l.get? 1 = some PACKET_SIGNATURE_LO then
        some l
      else if PACKET_SIGNATURE_HI ∈ l then
        let idx := l.findIdx (· == PACKET_SIGNATURE_HI)
        if idx = l.length - 1 then
          some (l.drop idx)
        else if idx < l.length - 2 then
          if l.get? (idx + 1) = some PACKET_SIGNATURE_LO then
            some (l.drop idx)
          else
            skip_fuel fuel (l.drop (idx + 1))
        else
          some l
      else
        some []
    else if l.length = 1 ∧ l.head? ≠ some PACKET_SIGNATURE_HI then
      some []
    else
      some l

/-! ## BinaryMessage -/

def PACKET_OFFSET_SIGN_MSB : Nat := 0

def PACKET_OFFSET_SIGN_LSB : Nat := 1

def PACKET_OFFSET_VERSION : Nat := 2

def PACKET_OFFSET_FLAGS : Nat := 3

def PACKET_OFFSET_LEN_LSB : Nat := 4

def PACKET_OFFSET_LEN_MSB : Nat := 5

def PACKET_OFFSET_INTENT_LSB : Nat := 6

def PACKET_OFFSET_INTENT_MSB : Nat := 7

def PACKET_OFFSET_DATA : Nat := 8

/-- The exception classes of the framer (`BinaryMessageError` hierarchy).
These classes are well-formed in the source (unlike the formatter errors,
see `PyExc` below). -/
inductive BinaryMessageError where
  | incompletePacket
  | invalidPacketLength
  | invalidSignature
  | invalidCRC
deriving DecidableEq, Repr

/-- A `BinaryMessage` value: the five fields stored by `BinaryMessage.__init__`.
Byte strings are `List Nat`. -/
structure BinaryMessage where
  signature : Nat
  version : Nat
  flags : Nat
  intent : Nat
  data : List Nat
deriving DecidableEq, Repr

/-- Model of `AbstractBinaryMessage.length`: the length of the payload. -/
def BinaryMessage.length (m : BinaryMessage) : Nat := m.data.length

/-- Model of `AbstractBinaryMessage.checksum`: `(0xff - (s & 0xff)) & 0xff` where `s`
sums the signature (plus its high byte), version, flags, length and intent
(each plus their high bytes) and the payload bytes. -/
def BinaryMessage.checksum (m : BinaryMessage) : Nat :=
  let s := ((m.signature &&& 0xff00) >>> 8) + m.signature + m.version + m.flags +
    ((m.length &&& 0xff00) >>> 8) + m.length +
    ((m.intent &&& 0xff00) >>> 8) + m.intent + m.data.sum
  (0xff - (s &&& 0xff)) &&& 0xff

/-- Model of `AbstractBinaryMessage.to_binary`: eight header bytes, payload, checksum. -/
def BinaryMessage.to_binary (m : BinaryMessage) : List Nat :=
  [((m.signature &&& 0xff00) >>> 8) &&& 0xff,
   m.signature &&& 0xff,
   m.version &&& 0xff,
   m.flags &&& 0xff,
   m.length &&& 0xff, (m.length &&& 0xff00) >>> 8,
   m.intent &&& 0xff, (m.intent &&& 0xff00) >>> 8] ++ m.data ++ [m.checksum]

/-- Model of `BinaryMessage.from_binary`.  List indexing `binstr[i]` is modelled by
`getD i 0`; every read is guarded by the length checks exactly as in the
source.  The slice `binstr[8 : 8 + payload_len]` is `(drop 8).take
payload_len` and `binstr[0 : 8 + payload_len + 1]` is
`take (8 + payload_len + 1)`. -/
def BinaryMessage.from_binary (binstr : List Nat) :
    Except BinaryMessageError BinaryMessage :=
  if binstr.length < EMPTY_PACKET_LENGTH then
    .error .incompletePacket
  else
    let signature := ((binstr.getD PACKET_OFFSET_SIGN_MSB 0 &&& 0xff) <<< 8) |||
      (binstr.getD PACKET_OFFSET_SIGN_LSB 0 &&& 0xff)
    if signature ≠ PACKET_SIGNATURE then
      .error .invalidSignature
    else
      let version := binstr.getD PACKET_OFFSET_VERSION 0
      let flags := binstr.getD PACKET_OFFSET_FLAGS 0
      let payload_len := ((binstr.getD PACKET_OFFSET_LEN_MSB 0 &&& 0xff) <<< 8) |||
        (binstr.getD PACKET_OFFSET_LEN_LSB 0 &&& 0xff)
      if binstr.length < EMPTY_PACKET_LENGTH + payload_len then
        .error .invalidPacketLength
      else
        let intent := ((binstr.getD PACKET_OFFSET_INTENT_MSB 0 &&& 0xff) <<< 8) |||
          (binstr.getD PACKET_OFFSET_INTENT_LSB 0 &&& 0xff)
        let frame_data := (binstr.drop PACKET_OFFSET_DATA).take payload_len
        if 0xff ≠ ((binstr.take (PACKET_OFFSET_DATA + payload_len + 1)).sum &&& 0xff) then
          .error .invalidCRC
        else
          .ok ⟨signature, version, flags, intent, frame_data⟩

/-- Model of `BinaryPacketBuffer.has_packet`. -/
def has_packet (l : List Nat) : Bool :=
  if l.length < EMPTY_PACKET_LENGTH then
    false
  else
    let payload_len := ((l.getD PACKET_OFFSET_LEN_MSB 0 <<< 8) &&& 0xff00) |||
      (l.getD PACKET_OFFSET_LEN_LSB 0 &&& 0xff)
    if l.length < payload_len + EMPTY_PACKET_LENGTH then false else true

/-- Model of `BinaryPacketBuffer.pop_packet`.  The result pairs the returned value (or
the exception propagated out of `from_binary`) with the buffer contents after
the call.  When `from_binary` raises, the `del` statement and the
resynchronization are never executed, so the buffer is returned unchanged. -/
def pop_packet (l : List Nat) :
    Except BinaryMessageError (Option BinaryMessage) × List Nat :=
  if ¬ has_packet l then
    (.ok none, l)
  else
    match BinaryMessage.from_binary l with
    | .error e => (.error e, l)
    | .ok msg =>
      let rest := l.drop (PACKET_OFFSET_DATA + 1 +
        (((l.getD PACKET_OFFSET_LEN_MSB 0 <<< 8) &&& 0xff00) |||
          (l.getD PACKET_OFFSET_LEN_LSB 0 &&& 0xff)))
      (.ok (some msg), skip_to_next_packet rest)

/-! ## The dataReceived loop (BinaryProtocol.dataReceived) -/

/-- The `while self.factory.packet_buffer.has_packet()` loop of
`BinaryProtocol.dataReceived`, popping packets until none is available.
The loop is given explicit fuel; it stops early if `pop_packet` raises or
returns nothing (each successful pop removes at least 9 bytes, so fuel equal
to the buffer length always suffices, as proved below). -/
def pop_all_fuel : Nat → List Nat → List BinaryMessage × List Nat
  | 0, l => ([], l)
  | fuel + 1, l =>
    if has_packet l then
      match pop_packet l with
      | (.ok (some m), l') =>
        let r := pop_all_fuel fuel l'
        (m :: r.1, r.2)
      | _ => ([], l)
    else
      ([], l)

/-- One call of `BinaryProtocol.dataReceived`: append the chunk to the buffer,
then pop every complete packet.  Returns the popped packets in order and the
remaining buffer. -/
def data_received (buf chunk : List Nat) : List BinaryMessage × List Nat :=
  let buf' := buffer_append buf chunk
  pop_all_fuel buf'.length buf'

/-- Folding step: feed one chunk and accumulate the packets received so far. -/
def feed_step (acc : List BinaryMessage × List Nat) (c : List Nat) :
    List BinaryMessage × List Nat :=
  let r := data_received acc.2 c
  (acc.1 ++ r.1, r.2)

/-- Feeding a sequence of chunks to a fresh `BinaryPacketBuffer` and popping
every available frame after each append. -/
def process_chunks (chunks : List (List Nat)) : List BinaryMessage × List Nat :=
  chunks.foldl feed_step ([], [])

/-- A frame whose fields are all in range for the wire format. -/
def ValidFrame (m : BinaryMessage) : Prop :=
  m.signature = PACKET_SIGNATURE ∧ m.version < 256 ∧ m.flags < 256 ∧
    m.intent < 65536 ∧ m.data.length ≤ 65535

/-! ## BinaryFormatter (schema-driven codec)

The serializer walks a Python object whose `__binary_struct__` lists its
binary properties; the deserializer walks the same structure.  The embedding
represents a record object by its schema (the ordered `(wire type)` list of
its properties) together with the list of its property values. -/

/-- Exceptions that can propagate out of `BinaryFormatter`.
`BinaryFormatterError.__init__` invokes `super(BinarySerializerError, self)`
where the name `BinarySerializerError` is not defined anywhere in the
module, so every attempt to construct (and hence raise)
`BinarySerializationError` or `BinaryDeserializationError` actually raises
`NameError`.  The `serializationError` variant is included to state that it
can never occur.  `structError` stands for `struct.error` raised by
`struct.pack`/`struct.unpack_from`, `typeError` for `TypeError` raised
by `len()` on a non-sequence, and `unicodeDecodeError` for the
`UnicodeDecodeError` raised by `bstr.decode('utf-8')` in the `String`
branch of `_deserialize` when the sliced bytes are not valid UTF-8. -/
inductive PyExc where
  | nameError
  | typeError
  | structError
  | serializationError
  | unicodeDecodeError
deriving DecidableEq, Repr

/-- The wire type attached to a `binary_property`.  The `Array` constructor
carries the `__binary_struct__` of the `element_type` class of the
corresponding `array_binary_property`.  The floating-point tags
`Single`/`Double` of `DataTypes` are outside this embedding. -/
inductive FieldTy where
  | Null
  | Byte
  | Word
  | Dword
  | Qword
  | SignedByte
  | SignedWord
  | SignedDword
  | SignedQword
  | Boolean
  | Guid
  | String
  | Binary
  | Array (element_type : List FieldTy)

/-- Python values flowing through the codec.  `vGuid` is a `uuid.UUID`
modelled by its 16 `.bytes`; `vStr` is a Python 2 byte string (the UTF-8
decoding between `str` and `unicode` is modelled as the identity on the
byte sequence, and the `array('B')` slice produced for `Binary` properties
is likewise identified with its bytes); `vList` is a list; `vObj` is an
object carrying `__binary_struct__` (its schema) together with the values
of its binary properties in declaration order. -/
inductive BinValue where
  | vNull
  | vNat (n : Nat)
  | vInt (i : Int)
  | vBool (b : Bool)
  | vGuid (bytes : List Nat)
  | vStr (bytes : List Nat)
  | vList (elems : List BinValue)
  | vObj (schema : List FieldTy) (fields : List BinValue)

/-- Little-endian byte encoding on `k` bytes (the `<`-prefixed
`struct.pack` formats). -/
def leBytes : Nat → Nat → List Nat
  | 0, _ => []
  | k + 1, v => v % 256 :: leBytes k (v / 256)

/-- Little-endian byte decoding (what `struct.unpack_from` computes on the
`k` bytes it reads). -/
def leVal (bs : List Nat) : Nat :=
  bs.foldr (fun b acc => b + 256 * acc) 0

/-- Model of `struct.pack` for the unsigned formats `B`, `<H`, `<I`, `<Q`: the value
must be an integer within range, otherwise `struct.error`. -/
def packUnsigned (k : Nat) (v : BinValue) : Except PyExc (List Nat) :=
  match v with
  | .vNat n => if n < 2 ^ (8 * k) then .ok (leBytes k n) else .error .structError
  | _ => .error .structError

/-- Model of `struct.pack` for the signed formats `b`, `<h`, `<i`, `<q`: the value
must be within range; the wire form is the two's-complement little-endian
encoding. -/
def packSigned (k : Nat) (v : BinValue) : Except PyExc (List Nat) :=
  match v with
  | .vInt i =>
    if -(2 ^ (8 * k - 1) : Int) ≤ i ∧ i < 2 ^ (8 * k - 1) then
      .ok (leBytes k (i % (2 ^ (8 * k) : Int)).toNat)
    else .error .structError
  | _ => .error .structError

/-- Model of `struct.unpack_from` for a `k`-byte field at `offset`: requires
`offset + k ≤ |data|` (otherwise `struct.error`) and decodes the `k` bytes
little-endian.  (`BinaryFormatter.deserialize` first coerces its input with
`array.array('B', data)`, so the bytes are below 256.) -/
def unpack_from (data : List Nat) (off k : Nat) : Except PyExc Nat :=
  if off + k ≤ data.length then .ok (leVal ((data.drop off).take k))
  else .error .structError

/-- Big-endian byte encoding on `k` bytes. -/
def beBytes (k n : Nat) : List Nat := (leBytes k n).reverse

/-- Model of `uuid.UUID(fields = (time_low, time_mid, time_hi_version,
clock_seq_hi_variant, clock_seq_low, node))`, modelled by the 16 `.bytes`
of the resulting UUID: time_low as 4 big-endian bytes, time_mid and
time_hi_version as 2 big-endian bytes each, the two clock bytes, then node
as 6 big-endian bytes. -/
def uuid_bytes_of_fields (time_low time_mid time_hi clock_hi clock_lo node : Nat) :
    List Nat :=
  beBytes 4 time_low ++ beBytes 2 time_mid ++ beBytes 2 time_hi ++
    beBytes 1 clock_hi ++ beBytes 1 clock_lo ++ beBytes 6 node

mutual

/-- Model of `BinaryFormatter.serialize`: dispatches on the argument as the source
does on the Python object — a list/tuple gets a 16-bit count followed by
its serialized elements; an object with `__binary_struct__` serializes its
properties in order; anything else hits
`raise BinarySerializationError('unsupported type ...')`, whose broken
constructor actually raises `NameError`. -/
def serialize (obj : BinValue) : Except PyExc (List Nat) :=
  match obj with
  | .vList elems =>
    if elems.length < 65536 then
      match serialize_list elems with
      | .ok body => .ok (leBytes 2 elems.length ++ body)
      | .error e => .error e
    else .error .structError
  | .vObj schema fields => serialize_struct schema fields
  | _ => .error .nameError
termination_by (sizeOf obj, 0)

/-- The `for element in obj` loop of the list branch of `serialize`. -/
def serialize_list (elems : List BinValue) : Except PyExc (List Nat) :=
  match elems with
  | [] => .ok []
  | v :: vs =>
    match serialize v with
    | .error e => .error e
    | .ok b =>
      match serialize_list vs with
      | .error e => .error e
      | .ok r => .ok (b ++ r)
termination_by (sizeOf elems, 0)

/-- The `for prop in obj.__binary_struct__` loop of `serialize`. -/
def serialize_struct : List FieldTy → List BinValue → Except PyExc (List Nat)
  | [], [] => .ok []
  | t :: ts, v :: vs =>
    match serialize_prop t v with
    | .error e => .error e
    | .ok b =>
      match serialize_struct ts vs with
      | .error e => .error e
      | .ok r => .ok (b ++ r)
  | _, _ => .error .structError
termination_by ts vs => (sizeOf vs, 0)

/-- Serialization of a single property, by wire type.  For `Guid`, a
`uuid.UUID` value (here: its bytes, `vGuid`) is emitted unchecked, a byte
string is emitted after the `len(guid) != 16` check (whose failure raises
`BinarySerializationError`, i.e. `NameError`), and `len()` of any other
value raises `TypeError`.  For `Array`, the element type is not consulted:
the property's value is serialized by the top-level dispatch, exactly as in
the source. -/
def serialize_prop (t : FieldTy) (v : BinValue) : Except PyExc (List Nat) :=
  match t, v with
  | .Null, _ => .ok []
  | .Byte, v => packUnsigned 1 v
  | .Word, v => packUnsigned 2 v
  | .Dword, v => packUnsigned 4 v
  | .Qword, v => packUnsigned 8 v
  | .SignedByte, v => packSigned 1 v
  | .SignedWord, v => packSigned 2 v
  | .SignedDword, v => packSigned 4 v
  | .SignedQword, v => packSigned 8 v
  | .Boolean, .vBool b => .ok [if b then 1 else 0]
  | .Boolean, _ => .error .structError
  | .Guid, .vGuid bs => .ok bs
  | .Guid, .vStr bs => if bs.length ≠ 16 then .error .nameError else .ok bs
  | .Guid, _ => .error .typeError
  | .String, .vStr bs =>
    if bs.length < 65536 then .ok (leBytes 2 bs.length ++ bs) else .error .structError
  | .String, _ => .error .typeError
  | .Binary, .vStr bs =>
    if bs.length < 65536 then .ok (leBytes 2 bs.length ++ bs) else .error .structError
  | .Binary, _ => .error .typeError
  | .Array _, v => serialize v
termination_by (sizeOf v, 1)

end

/-- One step of the acceptance automaton of CPython's strict `utf-8` codec
(what `bstr.decode('utf-8')` runs): state `0` expects a start byte, states
`1`-`3` expect that many plain continuation bytes `0x80`-`0xBF`, and states
`4`-`7` are the restricted second-byte states entered after the start bytes
`0xE0`, `0xED`, `0xF0` and `0xF4` (ruling out overlong forms, surrogates
and code points above `U+10FFFF`, exactly the checks of the decoder's
3- and 4-byte cases; `0xC0`/`0xC1` and `0xF5`-`0xFF` are illegal start
bytes).  `none` means `UnicodeDecodeError`. -/
def utf8_step (st b : Nat) : Option Nat :=
  match st with
  | 0 =>
    if b < 0x80 then some 0
    else if 0xc2 ≤ b ∧ b ≤ 0xdf then some 1
    else if b = 0xe0 then some 4
    else if b = 0xed then some 5
    else if (0xe1 ≤ b ∧ b ≤ 0xec) ∨ (0xee ≤ b ∧ b ≤ 0xef) then some 2
    else if b = 0xf0 then some 6
    else if 0xf1 ≤ b ∧ b ≤ 0xf3 then some 3
    else if b = 0xf4 then some 7
    else none
  | 1 => if 0x80 ≤ b ∧ b ≤ 0xbf then some 0 else none
  | 2 => if 0x80 ≤ b ∧ b ≤ 0xbf then some 1 else none
  | 3 => if 0x80 ≤ b ∧ b ≤ 0xbf then some 2 else none
  | 4 => if 0xa0 ≤ b ∧ b ≤ 0xbf then some 1 else none
  | 5 => if 0x80 ≤ b ∧ b ≤ 0x9f then some 1 else none
  | 6 => if 0x90 ≤ b ∧ b ≤ 0xbf then some 2 else none
  | 7 => if 0x80 ≤ b ∧ b ≤ 0x8f then some 2 else none
  | _ + 8 => none

/-- Run of the automaton over a byte list: accepted when every byte is
consumed without error and no multi-byte sequence is left incomplete at the
end of the data. -/
def utf8_scan : Nat → List Nat → Bool
  | st, [] => st == 0
  | st, b :: rest =>
    match utf8_step st b with
    | some st' => utf8_scan st' rest
    | none => false

/-- Validity of a byte sequence as strict UTF-8: the success condition of
the source's `bstr.decode('utf-8')`, which otherwise raises
`UnicodeDecodeError`. -/
def utf8_valid (bs : List Nat) : Bool := utf8_scan 0 bs

mutual

/-- The inner `_deserialize` of `BinaryFormatter.deserialize` applied to a
record type: decodes the properties of `__binary_struct__` in order and
returns the field values together with the final offset. -/
def deserialize_struct (data : List Nat) :
    List FieldTy → Nat → Except PyExc (List BinValue × Nat)
  | [], off => .ok ([], off)
  | t :: ts, off =>
    match deserialize_prop data t off with
    | .error e => .error e
    | .ok (v, off') =>
      match deserialize_struct data ts off' with
      | .error e => .error e
      | .ok (vs, off'') => .ok (v :: vs, off'')
termination_by ts off => (sizeOf ts, 0, 0)

/-- Decoding of a single property, by wire type.  For `Guid` the source
reconstructs the UUID fields with shifts over the 16 bytes and builds
`uuid.UUID(fields = ...)`; for `String`/`Binary` the length-prefixed slice
is taken (a Python slice silently truncates, and the offset advances by the
declared length regardless).  The `String` branch then runs
`bstr.decode('utf-8')` on the slice, which raises `UnicodeDecodeError`
unless the bytes are valid UTF-8; the resulting `unicode` string is
identified with its UTF-8 bytes, i.e. with the slice itself. -/
def deserialize_prop (data : List Nat) :
    FieldTy → Nat → Except PyExc (BinValue × Nat)
  | .Null, off => .ok (.vNull, off)
  | .Byte, off =>
    match unpack_from data off 1 with
    | .error e => .error e
    | .ok n => .ok (.vNat n, off + 1)
  | .Word, off =>
    match unpack_from data off 2 with
    | .error e => .error e
    | .ok n => .ok (.vNat n, off + 2)
  | .Dword, off =>
    match unpack_from data off 4 with
    | .error e => .error e
    | .ok n => .ok (.vNat n, off + 4)
  | .Qword, off =>
    match unpack_from data off 8 with
    | .error e => .error e
    | .ok n => .ok (.vNat n, off + 8)
  | .SignedByte, off =>
    match unpack_from data off 1 with
    | .error e => .error e
    | .ok u => .ok (.vInt (if 2 ^ 7 ≤ u then (u : Int) - 2 ^ 8 else (u : Int)), off + 1)
  | .SignedWord, off =>
    match unpack_from data off 2 with
    | .error e => .error e
    | .ok u => .ok (.vInt (if 2 ^ 15 ≤ u then (u : Int) - 2 ^ 16 else (u : Int)), off + 2)
  | .SignedDword, off =>
    match unpack_from data off 4 with
    | .error e => .error e
    | .ok u => .ok (.vInt (if 2 ^ 31 ≤ u then (u : Int) - 2 ^ 32 else (u : Int)), off + 4)
  | .SignedQword, off =>
    match unpack_from data off 8 with
    | .error e => .error e
    | .ok u => .ok (.vInt (if 2 ^ 63 ≤ u then (u : Int) - 2 ^ 64 else (u : Int)), off + 8)
  | .Boolean, off =>
    match unpack_from data off 1 with
    | .error e => .error e
    | .ok u => .ok (.vBool (u != 0), off + 1)
  | .Guid, off =>
    if off + 16 ≤ data.length then
      let v := (data.drop off).take 16
      .ok (.vGuid (uuid_bytes_of_fields
        ((v.getD 0 0 <<< 24) ||| (v.getD 1 0 <<< 16) ||| (v.getD 2 0 <<< 8) ||| v.getD 3 0)
        ((v.getD 4 0 <<< 8) ||| v.getD 5 0)
        ((v.getD 6 0 <<< 8) ||| v.getD 7 0)
        (v.getD 8 0)
        (v.getD 9 0)
        ((v.getD 10 0 <<< 40) ||| (v.getD 11 0 <<< 32) ||| (v.getD 12 0 <<< 24) |||
          (v.getD 13 0 <<< 16) ||| (v.getD 14 0 <<< 8) ||| v.getD 15 0)), off + 16)
    else .error .structError
  | .String, off =>
    match unpack_from data off 2 with
    | .error e => .error e
    | .ok strlen =>
      let bstr := (data.drop (off + 2)).take strlen
      if utf8_valid bstr then .ok (.vStr bstr, off + 2 + strlen)
      else .error .unicodeDecodeError
  | .Binary, off =>
    match unpack_from data off 2 with
    | .error e => .error e
    | .ok binlen => .ok (.vStr ((data.drop (off + 2)).take binlen), off + 2 + binlen)
  | .Array es, off =>
    match unpack_from data off 2 with
    | .error e => .error e
    | .ok arrlen =>
      match deserialize_elems data es arrlen (off + 2) with
      | .error e => .error e
      | .ok (elems, off') => .ok (.vList elems, off')
termination_by t off => (sizeOf t, 2, 0)

/-- The `for i in range(0, arrlen)` loop of the `Array` branch: each element
is decoded with `_deserialize(data, prop.element_type, offset)`, producing
an instance of the element class (a `vObj` carrying the element schema). -/
def deserialize_elems (data : List Nat) (es : List FieldTy) :
    Nat → Nat → Except PyExc (List BinValue × Nat)
  | 0, off => .ok ([], off)
  | k + 1, off =>
    match deserialize_struct data es off with
    | .error e => .error e
    | .ok (fields, off') =>
      match deserialize_elems data es k off' with
      | .error e => .error e
      | .ok (rest, off'') => .ok (.vObj es fields :: rest, off'')
termination_by k off => (sizeOf es, 1, k)

end

/-- Model of `BinaryFormatter.deserialize(data, type)`: the inner `_deserialize`
starting at offset 0 (the outer wrapper discards the offset; the claim is
about the pair). -/
def deserialize (data : List Nat) (type : List FieldTy) :
    Except PyExc (List BinValue × Nat) :=
  deserialize_struct data type 0

mutual

/-- Conformance of a record value to a record schema (spec §3/§4.3): each
field value matches its wire type and lies within the representable
range. -/
def conforms_struct : List FieldTy → List BinValue → Prop
  | [], [] => True
  | t :: ts, v :: vs => conforms_prop t v ∧ conforms_struct ts vs
  | _, _ => False
termination_by ts vs => sizeOf vs

/-- Conformance of a single field value to its wire type.  A `String` value
must be valid UTF-8 (the spec deems non-UTF-8 strings non-conformant, and
the decoder's `decode('utf-8')` raises on them). -/
def conforms_prop : FieldTy → BinValue → Prop
  | .Null, .vNull => True
  | .Byte, .vNat n => n < 2 ^ 8
  | .Word, .vNat n => n < 2 ^ 16
  | .Dword, .vNat n => n < 2 ^ 32
  | .Qword, .vNat n => n < 2 ^ 64
  | .SignedByte, .vInt i => -(2 ^ 7 : Int) ≤ i ∧ i < 2 ^ 7
  | .SignedWord, .vInt i => -(2 ^ 15 : Int) ≤ i ∧ i < 2 ^ 15
  | .SignedDword, .vInt i => -(2 ^ 31 : Int) ≤ i ∧ i < 2 ^ 31
  | .SignedQword, .vInt i => -(2 ^ 63 : Int) ≤ i ∧ i < 2 ^ 63
  | .Boolean, .vBool _ => True
  | .Guid, .vGuid bs => bs.length = 16 ∧ ∀ b ∈ bs, b < 256
  | .String, .vStr bs => bs.length < 65536 ∧ (∀ b ∈ bs, b < 256) ∧ utf8_valid bs = true
  | .Binary, .vStr bs => bs.length < 65536 ∧ ∀ b ∈ bs, b < 256
  | .Array es, .vList elems => elems.length < 65536 ∧ conforms_elems es elems
  | _, _ => False
termination_by t v => sizeOf v

/-- Conformance of the elements of an array value: every element is an
instance of the element class (a record carrying the element schema). -/
def conforms_elems : List FieldTy → List BinValue → Prop
  | _, [] => True
  | es, .vObj es' fields :: rest =>
    es' = es ∧ conforms_struct es fields ∧ conforms_elems es rest
  | _, _ => False
termination_by es l => sizeOf l

end

/-! ## AutoClassFactory and BinaryFactory (dynamic schema synthesis) -/

/-- The `DataTypes` constants carried by registration `Parameters`. -/
inductive DataTypes where
  | Null
  | Byte
  | Word
  | Dword
  | Qword
  | SignedByte
  | SignedWord
  | SignedDword
  | SignedQword
  | Single
  | Double
  | Boolean
  | Guid
  | String
  | Binary
  | Array
deriving DecidableEq, Repr

/-- A `Parameters` record of a registration payload. -/
structure Parameters where
  type : DataTypes
  name : String
deriving DecidableEq, Repr

/-- A `Command` record of a registration payload. -/
structure Command where
  intent : Nat
  name : String
  parameters : List Parameters
deriving DecidableEq, Repr

/-- Errors of `AutoClassFactory.generate`: it raises `NotImplementedError` for `Array`
parameters; the spec's error taxonomy calls this failure
`UnsupportedSchema`. -/
inductive AutoClassError where
  | notImplementedError
deriving DecidableEq, Repr

/-- The `for param in command.parameters` loop of `AutoClassFactory.generate`:
raises on an `Array`-typed parameter, otherwise accumulates the generated
binary properties in order. -/
def generate_params (ps : List Parameters) :
    Except AutoClassError (List (DataTypes × String)) :=
  match ps with
  | [] => .ok []
  | p :: rest =>
    if p.type = DataTypes.Array then .error .notImplementedError
    else
      match generate_params rest with
      | .error e => .error e
      | .ok r => .ok ((p.type, p.name) :: r)

/-- Model of `AutoClassFactory.generate`: synthesizes the binary-serializable class
of a command, i.e. its `__binary_struct__` as the ordered `(type, name)`
pairs of its parameters. -/
def generate (command : Command) : Except AutoClassError (List (DataTypes × String)) :=
  generate_params command.parameters

/-- Model of `BinaryFactory.handle_registration_request`: for each command of the
registration whose name is not already in `command_map`, synthesize its
auto class and insert it.  The `command_map` dict is modelled as an
association list in insertion order; the registration record is represented
by its `commands` field; the deferred callback is outside the embedding. -/
def handle_registration_request
    (command_map : List (String × List (DataTypes × String)))
    (commands : List Command) :
    Except AutoClassError (List (String × List (DataTypes × String))) :=
  match commands with
  | [] => .ok command_map
  | c :: cs =>
    if command_map.any (fun e => e.1 = c.name) then
      handle_registration_request command_map cs
    else
      match generate c with
      | .error e => .error e
      | .ok cls => handle_registration_request (command_map ++ [(c.name, cls)]) cs

/-! ## Theorems -/

/-! ### Bit-manipulation helpers

The source manipulates bytes with `&`, `|`, `<<`, `>>` on unbounded Python
integers; these lemmas convert those operations to `%`, `/`, `*` and `+`. -/

theorem land_ff (x : Nat) : x &&& 0xff = x % 256 := by
  have h := Nat.and_pow_two_sub_one_eq_mod x 8
  norm_num at h
  exact h

theorem lor_eq_add {a b : Nat} (k : Nat) (ha : 2 ^ k ∣ a) (hb : b < 2 ^ k) :
    a ||| b = a + b := by
  obtain ⟨c, rfl⟩ := ha
  exact (Nat.mul_add_lt_is_or hb c).symm

theorem land_ff00_shr (x : Nat) : (x &&& 0xff00) >>> 8 = x / 256 % 256 := by
  have h : (x &&& 0xff00) >>> 8 = (x >>> 8) &&& 0xff := by
    apply Nat.eq_of_testBit_eq
    intro i
    have h00 : (0xff00 : Nat) = 2 ^ 8 * (2 ^ 8 - 1) := by norm_num
    have hff : (0xff : Nat) = 2 ^ 8 - 1 := by norm_num
    simp only [Nat.testBit_shiftRight, Nat.testBit_and, h00, hff,
      Nat.testBit_mul_pow_two, Nat.testBit_two_pow_sub_one]
    simp only [ge_iff_le, Nat.le_add_right, decide_True, Bool.true_and,
      Nat.add_sub_cancel_left]
  rw [h, land_ff, Nat.shiftRight_eq_div_pow]

theorem shl8_land_ff00 (x : Nat) : (x <<< 8) &&& 0xff00 = 256 * (x % 256) := by
  have h : (x <<< 8) &&& 0xff00 = (x &&& 0xff) <<< 8 := by
    apply Nat.eq_of_testBit_eq
    intro i
    have h00 : (0xff00 : Nat) = 2 ^ 8 * (2 ^ 8 - 1) := by norm_num
    have hff : (0xff : Nat) = 2 ^ 8 - 1 := by norm_num
    simp only [Nat.testBit_and, Nat.testBit_shiftLeft, h00, hff,
      Nat.testBit_mul_pow_two, Nat.testBit_two_pow_sub_one, ge_iff_le]
    by_cases hi : 8 ≤ i <;> simp [hi]
  rw [h, land_ff, Nat.shiftLeft_eq]
  ring

/-- Reading a 16-bit little-endian field the way `from_binary` does. -/
theorem read_le16 (hi lo : Nat) :
    ((hi &&& 0xff) <<< 8) ||| (lo &&& 0xff) = 256 * (hi % 256) + lo % 256 := by
  rw [land_ff, land_ff, Nat.shiftLeft_eq]
  have ha : 2 ^ 8 ∣ hi % 256 * 2 ^ 8 := Dvd.intro_left _ rfl
  rw [lor_eq_add 8 ha (by norm_num [Nat.mod_lt])]
  ring

/-- Reading a 16-bit little-endian field the way `has_packet` and
`pop_packet` do. -/
theorem read_le16_hp (hi lo : Nat) :
    ((hi <<< 8) &&& 0xff00) ||| (lo &&& 0xff) = 256 * (hi % 256) + lo % 256 := by
  rw [shl8_land_ff00, land_ff]
  have ha : 2 ^ 8 ∣ 256 * (hi % 256) := by norm_num
  rw [lor_eq_add 8 ha (by norm_num [Nat.mod_lt])]

/-- Helper for C10: fuel strictly larger than the buffer length always
suffices, because every recursive self-invocation drops at least one byte. -/
theorem skip_fuel_sufficient :
    ∀ (fuel : Nat) (l : List Nat), l.length < fuel →
      skip_fuel fuel l = some (skip_to_next_packet l) := by
  intro fuel
  induction fuel with
  | zero => intro l h; omega
  | succ n ih =>
    intro l h
    rw [skip_fuel, skip_to_next_packet]
    dsimp only
    by_cases h1 : 1 < l.length
    · split_ifs <;>
        first
          | rfl
          | · apply ih
              simp only [List.length_drop]
              omega
    · split_ifs <;> rfl

/-- C10: the resynchronization procedure `_skip_to_next_packet` terminates on
every finite buffer: the fuel-indexed version with recursion depth
`|buf| + 1` never exhausts its fuel and computes the same result as the
total function, because every recursive self-invocation happens on a
strictly shorter buffer. -/
theorem c10_skip_to_next_packet_total (l : List Nat) :
    skip_fuel (l.length + 1) l = some (skip_to_next_packet l) :=
  skip_fuel_sufficient (l.length + 1) l (by omega)

/-- C1: the invariant claimed in the spec is violated by the code.  Appending
`[0xC5, 0x00]` to an empty buffer leaves the buffer equal to `[0xC5, 0x00]`
(the source's `_skip_to_next_packet` has no branch for the case where the
first `0xC5` occurs at index `len - 2`, so it deletes nothing), yet the
buffer has length 2 and its first two bytes are not `0xC5, 0xC3`. -/
theorem c1_invariant_violated_after_append :
    buffer_append [] [0xc5, 0x00] = [0xc5, 0x00] ∧
      ¬ buffer_invariant [0xc5, 0x00] := by
  constructor
  · rw [buffer_append, List.nil_append, skip_to_next_packet]
    norm_num [PACKET_SIGNATURE_HI, PACKET_SIGNATURE_LO, List.findIdx_cons]
  · decide

/-- C9 counterexample: there is no finite ceiling at which `append` clears the
buffer: for every candidate ceiling `N` the single append of
`0xC5 :: 0xC3 :: (N zeros)` to the empty buffer exceeds `N` and is retained
in full (the source's `append` merely extends the list and resynchronizes;
no overflow check exists anywhere). -/
theorem c9_no_overflow_ceiling :
    ¬ ∃ N : Nat, ∀ buf chunk : List Nat,
        N < (buf ++ chunk).length → buffer_append buf chunk = [] := by
  rintro ⟨N, h⟩
  have h2 := h [] (0xc5 :: 0xc3 :: List.replicate N 0)
    (by simp only [List.nil_append, List.length_cons, List.length_replicate]; omega)
  rw [buffer_append, List.nil_append, skip_to_next_packet] at h2
  simp [PACKET_SIGNATURE_HI, PACKET_SIGNATURE_LO] at h2

/-- C9 amended: `append` imposes no resource ceiling; for every bound `N`
there is an append call that leaves `N + 2` bytes in the buffer (and no
error of any kind is signalled: `buffer_append` is a total function). -/
theorem c9_buffer_grows_unboundedly (N : Nat) :
    (buffer_append [] (0xc5 :: 0xc3 :: List.replicate N 0)).length = N + 2 := by
  rw [buffer_append, List.nil_append, skip_to_next_packet]
  simp [PACKET_SIGNATURE_HI, PACKET_SIGNATURE_LO]

theorem mod256_idem (x : Nat) : x % 256 % 256 = x % 256 :=
  Nat.mod_mod_of_dvd x dvd_rfl

theorem read_le16_mod (a b : Nat) :
    ((a % 256) <<< 8) ||| (b % 256) = 256 * (a % 256) + b % 256 := by
  rw [Nat.shiftLeft_eq]
  have ha : 2 ^ 8 ∣ a % 256 * 2 ^ 8 := Dvd.intro_left _ rfl
  rw [lor_eq_add 8 ha (by norm_num [Nat.mod_lt])]
  ring

/-- The checksum law holds for every `BinaryMessage` value, with no
constraints on the fields at all: `to_binary` masks each header byte to
8 bits, and the checksum definition sums exactly the same quantities
modulo 256. -/
theorem to_binary_sum_mod (m : BinaryMessage) : m.to_binary.sum % 256 = 0xff := by
  simp only [BinaryMessage.to_binary, BinaryMessage.checksum, BinaryMessage.length,
    List.sum_append, List.sum_cons, List.sum_nil, land_ff, land_ff00_shr]
  omega

/-- C4: for every frame with the wire signature, byte-sized version and
flags, 16-bit intent and payload of length at most 65535, the sum of all
bytes of the encoded frame is congruent to 0xFF modulo 256. -/
theorem c4_checksum_law (m : BinaryMessage)
    (hsig : m.signature = PACKET_SIGNATURE) (hver : m.version < 256)
    (hflags : m.flags < 256) (hintent : m.intent < 65536)
    (hdata : m.data.length ≤ 65535) :
    m.to_binary.sum % 256 = 0xff :=
  to_binary_sum_mod m

/-- Witness for C4 at the frame of scenario S2 of the spec. -/
theorem c4_checksum_law_witness :
    (BinaryMessage.mk 0xc5c3 2 3 4 [0x31, 0x32, 0x33]).signature = PACKET_SIGNATURE ∧
      (BinaryMessage.mk 0xc5c3 2 3 4 [0x31, 0x32, 0x33]).to_binary.sum % 256 = 0xff :=
  ⟨by decide, c4_checksum_law _ (by decide) (by decide) (by decide) (by decide) (by decide)⟩

/-- Decoding an encoding, possibly followed by further buffered bytes,
recovers the original frame.  This is the general form used both for C3 and
for the chunking-independence proof. -/
theorem from_binary_to_binary_append (m : BinaryMessage) (rest : List Nat)
    (hsig : m.signature = PACKET_SIGNATURE) (hver : m.version < 256)
    (hflags : m.flags < 256) (hintent : m.intent < 65536)
    (hdata : m.data.length ≤ 65535) :
    BinaryMessage.from_binary (m.to_binary ++ rest) = .ok m := by
  obtain ⟨sig, ver, fl, it, data⟩ := m
  dsimp only at hsig hver hflags hintent hdata
  subst hsig
  have hsum := to_binary_sum_mod ⟨PACKET_SIGNATURE, ver, fl, it, data⟩
  have hTB : (BinaryMessage.to_binary ⟨PACKET_SIGNATURE, ver, fl, it, data⟩) ++ rest =
      0xc5 :: 0xc3 :: (ver &&& 0xff) :: (fl &&& 0xff) ::
      (data.length &&& 0xff) :: ((data.length &&& 0xff00) >>> 8) ::
      (it &&& 0xff) :: ((it &&& 0xff00) >>> 8) ::
      (data ++ ([BinaryMessage.checksum ⟨PACKET_SIGNATURE, ver, fl, it, data⟩] ++ rest)) := by
    simp [BinaryMessage.to_binary, BinaryMessage.length, PACKET_SIGNATURE] <;> decide
  have hlen : (BinaryMessage.to_binary ⟨PACKET_SIGNATURE, ver, fl, it, data⟩).length =
      9 + data.length := by
    simp [BinaryMessage.to_binary]
    omega
  have hlenL : ((BinaryMessage.to_binary ⟨PACKET_SIGNATURE, ver, fl, it, data⟩) ++ rest).length =
      9 + data.length + rest.length := by
    rw [List.length_append, hlen]
  have hb0 : ((BinaryMessage.to_binary ⟨PACKET_SIGNATURE, ver, fl, it, data⟩) ++ rest).getD
      PACKET_OFFSET_SIGN_MSB 0 = 0xc5 := by
    rw [hTB]; rfl
  have hb1 : ((BinaryMessage.to_binary ⟨PACKET_SIGNATURE, ver, fl, it, data⟩) ++ rest).getD
      PACKET_OFFSET_SIGN_LSB 0 = 0xc3 := by
    rw [hTB]; rfl
  have hb2 : ((BinaryMessage.to_binary ⟨PACKET_SIGNATURE, ver, fl, it, data⟩) ++ rest).getD
      PACKET_OFFSET_VERSION 0 = ver &&& 0xff := by
    rw [hTB]; rfl
  have hb3 : ((BinaryMessage.to_binary ⟨PACKET_SIGNATURE, ver, fl, it, data⟩) ++ rest).getD
      PACKET_OFFSET_FLAGS 0 = fl &&& 0xff := by
    rw [hTB]; rfl
  have hb4 : ((BinaryMessage.to_binary ⟨PACKET_SIGNATURE, ver, fl, it, data⟩) ++ rest).getD
      PACKET_OFFSET_LEN_LSB 0 = data.length &&& 0xff := by
    rw [hTB]; rfl
  have hb5 : ((BinaryMessage.to_binary ⟨PACKET_SIGNATURE, ver, fl, it, data⟩) ++ rest).getD
      PACKET_OFFSET_LEN_MSB 0 = (data.length &&& 0xff00) >>> 8 := by
    rw [hTB]; rfl
  have hb6 : ((BinaryMessage.to_binary ⟨PACKET_SIGNATURE, ver, fl, it, data⟩) ++ rest).getD
      PACKET_OFFSET_INTENT_LSB 0 = it &&& 0xff := by
    rw [hTB]; rfl
  have hb7 : ((BinaryMessage.to_binary ⟨PACKET_SIGNATURE, ver, fl, it, data⟩) ++ rest).getD
      PACKET_OFFSET_INTENT_MSB 0 = (it &&& 0xff00) >>> 8 := by
    rw [hTB]; rfl
  rw [BinaryMessage.from_binary]
  rw [hb0, hb1, hb2, hb3, hb4, hb5, hb6, hb7, hlenL]
  have hsigp : (((0xc5 : Nat) &&& 0xff) <<< 8) ||| ((0xc3 : Nat) &&& 0xff) = PACKET_SIGNATURE := by
    decide
  have hplenp : ((((data.length &&& 0xff00) >>> 8) &&& 0xff) <<< 8) |||
      ((data.length &&& 0xff) &&& 0xff) = data.length := by
    simp only [land_ff00_shr, land_ff, mod256_idem, read_le16_mod]
    omega
  have hitp : ((((it &&& 0xff00) >>> 8) &&& 0xff) <<< 8) |||
      ((it &&& 0xff) &&& 0xff) = it := by
    simp only [land_ff00_shr, land_ff, mod256_idem, read_le16_mod]
    omega
  rw [hsigp, hplenp, hitp]
  rw [if_neg (by simp only [EMPTY_PACKET_LENGTH, not_lt]; omega)]
  rw [if_neg (by simp)]
  rw [if_neg (by simp only [EMPTY_PACKET_LENGTH, not_lt]; omega)]
  have htakeL : ((BinaryMessage.to_binary ⟨PACKET_SIGNATURE, ver, fl, it, data⟩) ++ rest).take
      (PACKET_OFFSET_DATA + data.length + 1) =
      BinaryMessage.to_binary ⟨PACKET_SIGNATURE, ver, fl, it, data⟩ := by
    rw [show PACKET_OFFSET_DATA + data.length + 1 = 9 + data.length by
      rw [PACKET_OFFSET_DATA]; omega, ← hlen]
    exact List.take_left _ _
  have hcrc : (((BinaryMessage.to_binary ⟨PACKET_SIGNATURE, ver, fl, it, data⟩) ++ rest).take
      (PACKET_OFFSET_DATA + data.length + 1)).sum &&& 0xff = 0xff := by
    rw [htakeL, land_ff, hsum]
  rw [if_neg (by rw [hcrc]; simp)]
  have hdropL : ((BinaryMessage.to_binary ⟨PACKET_SIGNATURE, ver, fl, it, data⟩) ++ rest).drop
      PACKET_OFFSET_DATA =
      data ++ ([BinaryMessage.checksum ⟨PACKET_SIGNATURE, ver, fl, it, data⟩] ++ rest) := by
    rw [hTB]; rfl
  rw [hdropL, List.take_left]
  simp only [land_ff, Nat.mod_eq_of_lt hver, Nat.mod_eq_of_lt hflags]

/-- C3: for every frame with signature 0xC5C3, byte-sized version and flags,
16-bit intent and payload of length at most 65535,
`BinaryMessage.from_binary (f.to_binary)` succeeds and returns a frame whose
fields equal those of `f`. -/
theorem c3_frame_roundtrip (m : BinaryMessage)
    (hsig : m.signature = PACKET_SIGNATURE) (hver : m.version < 256)
    (hflags : m.flags < 256) (hintent : m.intent < 65536)
    (hdata : m.data.length ≤ 65535) :
    BinaryMessage.from_binary m.to_binary = .ok m := by
  have h := from_binary_to_binary_append m [] hsig hver hflags hintent hdata
  rwa [List.append_nil] at h

/-- Witness for C3 at the frame of scenario S2 of the spec. -/
theorem c3_frame_roundtrip_witness :
    (BinaryMessage.mk 0xc5c3 2 3 4 [0x31, 0x32, 0x33]).signature = PACKET_SIGNATURE ∧
      BinaryMessage.from_binary (BinaryMessage.mk 0xc5c3 2 3 4 [0x31, 0x32, 0x33]).to_binary =
        .ok (BinaryMessage.mk 0xc5c3 2 3 4 [0x31, 0x32, 0x33]) :=
  ⟨by decide,
    c3_frame_roundtrip _ (by decide) (by decide) (by decide) (by decide) (by decide)⟩

/-- C6 counterexample: popping the complete CRC-corrupted frame of scenario S3
raises `InvalidCRC`, but the buffer is returned *unchanged*: the frame's
bytes are not dropped (the source raises inside `from_binary` before the
`del` statement runs), contradicting the claim that the offending frame is
removed so that processing can continue. -/
theorem c6_crc_frame_not_dropped :
    pop_packet [0xc5, 0xc3, 0x02, 0x03, 0x03, 0x00, 0x04, 0x00, 0x31, 0x32, 0x33, 0xba] =
      (.error .invalidCRC,
        [0xc5, 0xc3, 0x02, 0x03, 0x03, 0x00, 0x04, 0x00, 0x31, 0x32, 0x33, 0xba]) ∧
      ([0xc5, 0xc3, 0x02, 0x03, 0x03, 0x00, 0x04, 0x00, 0x31, 0x32, 0x33, 0xba] : List Nat) ≠
        [] := by
  exact ⟨rfl, by decide⟩

/-- C6 amended: whenever `pop_packet` is called on a buffer that starts with
the signature and holds a complete frame whose checksum is inconsistent, it
raises `InvalidCRC` and leaves the buffer exactly as it was: the offending
bytes are *not* dropped. -/
theorem c6_amended_crc_raises_and_keeps_buffer (l : List Nat)
    (hb0 : l.getD 0 0 = 0xc5) (hb1 : l.getD 1 0 = 0xc3)
    (hp : has_packet l = true)
    (hcrc : (l.take (PACKET_OFFSET_DATA +
        (256 * (l.getD PACKET_OFFSET_LEN_MSB 0 % 256) +
          l.getD PACKET_OFFSET_LEN_LSB 0 % 256) + 1)).sum % 256 ≠ 0xff) :
    pop_packet l = (.error .invalidCRC, l) := by
  have hlen9 : ¬ l.length < EMPTY_PACKET_LENGTH := by
    intro hh
    rw [has_packet, if_pos hh] at hp
    exact Bool.false_ne_true hp
  have hlenN : ¬ l.length < (256 * (l.getD PACKET_OFFSET_LEN_MSB 0 % 256) +
      l.getD PACKET_OFFSET_LEN_LSB 0 % 256) + EMPTY_PACKET_LENGTH := by
    intro hh
    rw [has_packet, if_neg hlen9] at hp
    dsimp only at hp
    rw [read_le16_hp, if_pos hh] at hp
    exact Bool.false_ne_true hp
  have hfb : BinaryMessage.from_binary l = .error .invalidCRC := by
    rw [BinaryMessage.from_binary]
    rw [if_neg hlen9]
    rw [show l.getD PACKET_OFFSET_SIGN_MSB 0 = 0xc5 from hb0,
      show l.getD PACKET_OFFSET_SIGN_LSB 0 = 0xc3 from hb1]
    rw [if_neg (by decide)]
    rw [read_le16]
    rw [if_neg (by omega)]
    rw [if_pos (by rw [land_ff]; exact fun h => hcrc h.symm)]
  rw [pop_packet, if_neg (by simp [hp]), hfb]

/-- Witness for the amended C6 at the concrete buffer of scenario S3. -/
theorem c6_amended_witness :
    (([0xc5, 0xc3, 0x02, 0x03, 0x03, 0x00, 0x04, 0x00, 0x31, 0x32, 0x33,
        0xba] : List Nat).getD 0 0 = 0xc5) ∧
      has_packet [0xc5, 0xc3, 0x02, 0x03, 0x03, 0x00, 0x04, 0x00, 0x31, 0x32, 0x33,
        0xba] = true ∧
      pop_packet [0xc5, 0xc3, 0x02, 0x03, 0x03, 0x00, 0x04, 0x00, 0x31, 0x32, 0x33, 0xba] =
        (.error .invalidCRC,
          [0xc5, 0xc3, 0x02, 0x03, 0x03, 0x00, 0x04, 0x00, 0x31, 0x32, 0x33, 0xba]) :=
  ⟨by decide, by decide,
    c6_amended_crc_raises_and_keeps_buffer _ (by decide) (by decide) (by decide) (by decide)⟩

/-! ### Chunking independence (C2) -/

theorem to_binary_cons (m : BinaryMessage) :
    m.to_binary = (((m.signature &&& 0xff00) >>> 8) &&& 0xff) :: (m.signature &&& 0xff) ::
      (m.version &&& 0xff) :: (m.flags &&& 0xff) :: (m.data.length &&& 0xff) ::
      ((m.data.length &&& 0xff00) >>> 8) :: (m.intent &&& 0xff) ::
      ((m.intent &&& 0xff00) >>> 8) :: (m.data ++ [m.checksum]) := by
  simp [BinaryMessage.to_binary, BinaryMessage.length]

theorem to_binary_signature_bytes (m : BinaryMessage)
    (h : m.signature = PACKET_SIGNATURE) :
    m.to_binary = 0xc5 :: 0xc3 :: ((m.version &&& 0xff) :: (m.flags &&& 0xff) ::
      (m.data.length &&& 0xff) :: ((m.data.length &&& 0xff00) >>> 8) ::
      (m.intent &&& 0xff) :: ((m.intent &&& 0xff00) >>> 8) ::
      (m.data ++ [m.checksum])) := by
  rw [to_binary_cons, h,
    show ((PACKET_SIGNATURE &&& 0xff00) >>> 8) &&& 0xff = 0xc5 by decide,
    show PACKET_SIGNATURE &&& 0xff = 0xc3 by decide]

theorem to_binary_length (m : BinaryMessage) :
    m.to_binary.length = 9 + m.data.length := by
  simp [BinaryMessage.to_binary]
  omega

theorem getD_append_left' (l₁ l₂ : List Nat) (n : Nat) (h : n < l₁.length) :
    (l₁ ++ l₂).getD n 0 = l₁.getD n 0 := by
  simp [List.getD_eq_getElem?_getD, List.getElem?_append_left h]

theorem to_binary_getD_len_lsb (m : BinaryMessage) :
    m.to_binary.getD PACKET_OFFSET_LEN_LSB 0 = m.data.length &&& 0xff := by
  rw [to_binary_cons]; rfl

theorem to_binary_getD_len_msb (m : BinaryMessage) :
    m.to_binary.getD PACKET_OFFSET_LEN_MSB 0 = (m.data.length &&& 0xff00) >>> 8 := by
  rw [to_binary_cons]; rfl

/-- A buffer that is a nonempty prefix of a concatenation of valid encoded
frames starts with `0xC5` (and `0xC3` next, when two bytes are present), so
resynchronization leaves it unchanged. -/
theorem skip_on_frame_stream (fs : List BinaryMessage) (p r : List Nat)
    (hv : ∀ f ∈ fs, ValidFrame f)
    (he : p ++ r = (fs.map BinaryMessage.to_binary).flatten) :
    skip_to_next_packet p = p := by
  cases p with
  | nil => rw [skip_to_next_packet]; simp
  | cons a t =>
    cases fs with
    | nil => simp at he
    | cons f fs' =>
      have hf : ValidFrame f := hv f (by simp)
      simp only [List.map_cons, List.flatten_cons] at he
      rw [to_binary_signature_bytes f hf.1] at he
      simp only [List.cons_append, List.cons.injEq] at he
      obtain ⟨ha, he2⟩ := he
      subst ha
      cases t with
      | nil =>
        rw [skip_to_next_packet]
        norm_num [PACKET_SIGNATURE_HI]
      | cons b t' =>
        simp only [List.cons_append, List.cons.injEq] at he2
        obtain ⟨hb, -⟩ := he2
        subst hb
        rw [skip_to_next_packet]
        rw [dif_pos (by simp only [List.length_cons]; omega)]
        rw [if_pos ⟨rfl, rfl⟩]

theorem pop_all_fuel_no_packet (fuel : Nat) (l : List Nat)
    (h : has_packet l = false) :
    pop_all_fuel fuel l = ([], l) := by
  cases fuel with
  | zero => rfl
  | succ n => simp [pop_all_fuel, h]

/-- Value of `has_packet` on a buffer whose length bytes encode `n`. -/
theorem has_packet_iff (p : List Nat) (n : Nat)
    (h4 : p.getD PACKET_OFFSET_LEN_LSB 0 = n &&& 0xff)
    (h5 : p.getD PACKET_OFFSET_LEN_MSB 0 = (n &&& 0xff00) >>> 8)
    (hn : n < 65536) :
    has_packet p = decide (9 + n ≤ p.length) := by
  rw [has_packet]
  by_cases h9 : p.length < EMPTY_PACKET_LENGTH
  · rw [if_pos h9]
    have : ¬ (9 + n ≤ p.length) := by
      simp only [EMPTY_PACKET_LENGTH] at h9; omega
    simp [this]
  · rw [if_neg h9]
    dsimp only
    rw [h4, h5, read_le16_hp]
    have hval : 256 * (((n &&& 0xff00) >>> 8) % 256) + (n &&& 0xff) % 256 = n := by
      rw [land_ff00_shr, land_ff, mod256_idem, mod256_idem]
      omega
    rw [hval]
    simp only [EMPTY_PACKET_LENGTH] at h9
    by_cases hc : p.length < n + EMPTY_PACKET_LENGTH
    · rw [if_pos hc]
      have : ¬ (9 + n ≤ p.length) := by
        simp only [EMPTY_PACKET_LENGTH] at hc; omega
      simp [this]
    · rw [if_neg hc]
      have : 9 + n ≤ p.length := by
        simp only [EMPTY_PACKET_LENGTH] at hc; omega
      simp [this]

/-- A buffer that starts with a complete valid encoded frame reports a
packet. -/
theorem has_packet_frame (f : BinaryMessage) (q : List Nat) (hf : ValidFrame f) :
    has_packet (f.to_binary ++ q) = true := by
  have hlen := to_binary_length f
  have h4 : (f.to_binary ++ q).getD PACKET_OFFSET_LEN_LSB 0 = f.data.length &&& 0xff := by
    rw [getD_append_left' _ _ _ (by rw [hlen, PACKET_OFFSET_LEN_LSB]; omega),
      to_binary_getD_len_lsb]
  have h5 : (f.to_binary ++ q).getD PACKET_OFFSET_LEN_MSB 0 =
      (f.data.length &&& 0xff00) >>> 8 := by
    rw [getD_append_left' _ _ _ (by rw [hlen, PACKET_OFFSET_LEN_MSB]; omega),
      to_binary_getD_len_msb]
  rw [has_packet_iff _ f.data.length h4 h5 (by have := hf.2.2.2.2; omega)]
  have : 9 + f.data.length ≤ f.to_binary.length + q.length := by omega
  simp [this]

/-- Popping a buffer that starts with a complete valid encoded frame returns
that frame, removes exactly its bytes and resynchronizes the remainder. -/
theorem pop_packet_frame (f : BinaryMessage) (q : List Nat) (hf : ValidFrame f) :
    pop_packet (f.to_binary ++ q) = (.ok (some f), skip_to_next_packet q) := by
  obtain ⟨hsig, hver, hflags, hintent, hdata⟩ := hf
  have hlen := to_binary_length f
  have hfb := from_binary_to_binary_append f q hsig hver hflags hintent hdata
  have hhp := has_packet_frame f q ⟨hsig, hver, hflags, hintent, hdata⟩
  rw [pop_packet, if_neg (by simp [hhp]), hfb]
  have h4 : (f.to_binary ++ q).getD PACKET_OFFSET_LEN_LSB 0 = f.data.length &&& 0xff := by
    rw [getD_append_left' _ _ _ (by rw [hlen, PACKET_OFFSET_LEN_LSB]; omega),
      to_binary_getD_len_lsb]
  have h5 : (f.to_binary ++ q).getD PACKET_OFFSET_LEN_MSB 0 =
      (f.data.length &&& 0xff00) >>> 8 := by
    rw [getD_append_left' _ _ _ (by rw [hlen, PACKET_OFFSET_LEN_MSB]; omega),
      to_binary_getD_len_msb]
  rw [h4, h5, read_le16_hp]
  have hval : PACKET_OFFSET_DATA + 1 +
      (256 * (((f.data.length &&& 0xff00) >>> 8) % 256) + (f.data.length &&& 0xff) % 256) =
      f.to_binary.length := by
    rw [land_ff00_shr, land_ff, mod256_idem, mod256_idem, hlen, PACKET_OFFSET_DATA]
    omega
  rw [hval, List.drop_left]

/-- Specification of the pop-everything loop on a buffer that is a prefix of
a concatenation of valid encoded frames: it pops exactly the fully contained
frames, the leftover is the strict remainder, and no packet remains. -/
theorem pop_all_fuel_spec :
    ∀ (fs : List BinaryMessage) (p : List Nat) (fuel : Nat) (r : List Nat),
      (∀ f ∈ fs, ValidFrame f) →
      p ++ r = (fs.map BinaryMessage.to_binary).flatten →
      p.length ≤ fuel →
      ∃ fs1 fs2 q r2,
        fs = fs1 ++ fs2 ∧
        pop_all_fuel fuel p = (fs1, q) ∧
        (fs1.map BinaryMessage.to_binary).flatten ++ q = p ∧
        q ++ r2 = (fs2.map BinaryMessage.to_binary).flatten ∧
        has_packet q = false := by
  intro fs
  induction fs with
  | nil =>
    intro p fuel r hv he hfuel
    simp only [List.map_nil, List.flatten_nil, List.append_eq_nil] at he
    obtain ⟨hp, hr⟩ := he
    subst hp
    exact ⟨[], [], [], [], rfl, pop_all_fuel_no_packet fuel [] (by decide), by simp,
      by simp, by decide⟩
  | cons f fs' ih =>
    intro p fuel r hv he hfuel
    have hf : ValidFrame f := hv f (by simp)
    have hn : f.data.length ≤ 65535 := hf.2.2.2.2
    have hlenT := to_binary_length f
    simp only [List.map_cons, List.flatten_cons] at he
    by_cases hshort : p.length < 9 + f.data.length
    · have hhp : has_packet p = false := by
        by_cases h9 : p.length < 9
        · rw [has_packet, if_pos (by rw [EMPTY_PACKET_LENGTH]; omega)]
        · have h4 : p.getD PACKET_OFFSET_LEN_LSB 0 = f.data.length &&& 0xff := by
            rw [show p.getD PACKET_OFFSET_LEN_LSB 0 = (p ++ r).getD PACKET_OFFSET_LEN_LSB 0
                from (getD_append_left' p r _ (by rw [PACKET_OFFSET_LEN_LSB]; omega)).symm,
              he, getD_append_left' _ _ _ (by rw [hlenT, PACKET_OFFSET_LEN_LSB]; omega),
              to_binary_getD_len_lsb]
          have h5 : p.getD PACKET_OFFSET_LEN_MSB 0 = (f.data.length &&& 0xff00) >>> 8 := by
            rw [show p.getD PACKET_OFFSET_LEN_MSB 0 = (p ++ r).getD PACKET_OFFSET_LEN_MSB 0
                from (getD_append_left' p r _ (by rw [PACKET_OFFSET_LEN_MSB]; omega)).symm,
              he, getD_append_left' _ _ _ (by rw [hlenT, PACKET_OFFSET_LEN_MSB]; omega),
              to_binary_getD_len_msb]
          rw [has_packet_iff p f.data.length h4 h5 (by omega)]
          have : ¬ (9 + f.data.length ≤ p.length) := by omega
          simp [this]
      refine ⟨[], f :: fs', p, r, rfl, pop_all_fuel_no_packet fuel p hhp, by simp, ?_, hhp⟩
      simp only [List.map_cons, List.flatten_cons]
      exact he
    · push_neg at hshort
      have htk : p.take (9 + f.data.length) = f.to_binary := by
        have h1 : (p ++ r).take (9 + f.data.length) = p.take (9 + f.data.length) :=
          List.take_append_of_le_length (by omega)
        have h2 : (p ++ r).take (9 + f.data.length) = f.to_binary := by
          rw [he, ← hlenT, List.take_left]
        rw [← h1, h2]
      have hsplit : p = f.to_binary ++ p.drop (9 + f.data.length) := by
        conv_lhs => rw [← List.take_append_drop (9 + f.data.length) p]
        rw [htk]
      have hq'r : p.drop (9 + f.data.length) ++ r = (fs'.map BinaryMessage.to_binary).flatten := by
        have h2 := he
        rw [hsplit, List.append_assoc] at h2
        exact List.append_cancel_left h2
      have hv' : ∀ g ∈ fs', ValidFrame g := fun g hg => hv g (by simp [hg])
      have hskip : skip_to_next_packet (p.drop (9 + f.data.length)) =
          p.drop (9 + f.data.length) :=
        skip_on_frame_stream fs' _ r hv' hq'r
      have hhp : has_packet p = true := by
        rw [hsplit]; exact has_packet_frame f _ hf
      cases fuel with
      | zero =>
        exfalso
        have : 9 ≤ p.length := by omega
        omega
      | succ fuel' =>
        have hpp2 : pop_packet p = (.ok (some f), p.drop (9 + f.data.length)) := by
          rw [hsplit] at hhp ⊢
          rw [pop_packet_frame f _ hf]
          rw [← hsplit, hskip]
        have hq'len : (p.drop (9 + f.data.length)).length ≤ fuel' := by
          simp only [List.length_drop]
          omega
        obtain ⟨fs1, fs2, q2, r2, hfs, hpa, hjoin, hq2r, hq2hp⟩ :=
          ih (p.drop (9 + f.data.length)) fuel' r hv' hq'r hq'len
        refine ⟨f :: fs1, fs2, q2, r2, by rw [hfs, List.cons_append], ?_, ?_, hq2r, hq2hp⟩
        · have hstep : pop_all_fuel (fuel' + 1) p =
              (f :: (pop_all_fuel fuel' (p.drop (9 + f.data.length))).1,
                (pop_all_fuel fuel' (p.drop (9 + f.data.length))).2) := by
            simp [pop_all_fuel, hhp, hpp2]
          rw [hstep, hpa]
        · simp only [List.map_cons, List.flatten_cons, List.append_assoc]
          rw [hjoin]
          exact hsplit.symm

/-- Folding any chunking of the remaining encoded frames through
`dataReceived` pops exactly those frames and empties the buffer. -/
theorem process_fold_spec :
    ∀ (chunks : List (List Nat)) (fs2 acc : List BinaryMessage) (buf : List Nat),
      (∀ f ∈ fs2, ValidFrame f) →
      buf ++ chunks.flatten = (fs2.map BinaryMessage.to_binary).flatten →
      has_packet buf = false →
      chunks.foldl feed_step (acc, buf) = (acc ++ fs2, []) := by
  intro chunks
  induction chunks with
  | nil =>
    intro fs2 acc buf hv he hhp
    simp only [List.flatten_nil, List.append_nil] at he
    cases fs2 with
    | nil =>
      simp only [List.map_nil, List.flatten_nil] at he
      subst he
      simp
    | cons f fs2' =>
      exfalso
      simp only [List.map_cons, List.flatten_cons] at he
      rw [he] at hhp
      rw [has_packet_frame f _ (hv f (by simp))] at hhp
      exact absurd hhp (by simp)
  | cons c cs ih =>
    intro fs2 acc buf hv he hhp
    simp only [List.flatten_cons] at he
    have hbc : (buf ++ c) ++ cs.flatten = (fs2.map BinaryMessage.to_binary).flatten := by
      rw [List.append_assoc]
      exact he
    have hskip : buffer_append buf c = buf ++ c := by
      rw [buffer_append]
      exact skip_on_frame_stream fs2 (buf ++ c) cs.flatten hv hbc
    obtain ⟨fs1, fs2', q, r2, hfs, hpa, hjoin, hq2r, hqhp⟩ :=
      pop_all_fuel_spec fs2 (buf ++ c) (buf ++ c).length cs.flatten hv hbc (le_refl _)
    have hstep : feed_step (acc, buf) c = (acc ++ fs1, q) := by
      rw [feed_step, data_received]
      dsimp only
      rw [hskip, hpa]
    rw [List.foldl_cons, hstep]
    have hq_inv : q ++ cs.flatten = (fs2'.map BinaryMessage.to_binary).flatten := by
      have h1 : ((fs1.map BinaryMessage.to_binary).flatten ++ q) ++ cs.flatten =
          (fs2.map BinaryMessage.to_binary).flatten := by
        rw [hjoin]
        exact hbc
      rw [hfs, List.map_append, List.flatten_append, List.append_assoc] at h1
      exact List.append_cancel_left h1
    have hv' : ∀ g ∈ fs2', ValidFrame g := fun g hg => hv g (by rw [hfs]; simp [hg])
    rw [ih fs2' (acc ++ fs1) q hv' hq_inv hqhp, hfs, List.append_assoc]

/-- C2: feeding any chunking of a concatenation of valid encoded frames to a
fresh buffer, popping every available frame after each append, yields the
same sequence of decoded frames (and the same final buffer) as feeding the
whole concatenation as one chunk. -/
theorem c2_chunking_independence (fs : List BinaryMessage) (chunks : List (List Nat))
    (hv : ∀ f ∈ fs, ValidFrame f)
    (hc : chunks.flatten = (fs.map BinaryMessage.to_binary).flatten) :
    process_chunks chunks = process_chunks [chunks.flatten] := by
  have h1 : process_chunks chunks = ([] ++ fs, []) :=
    process_fold_spec chunks fs [] [] hv (by simpa using hc) (by decide)
  have h2 : process_chunks [chunks.flatten] = ([] ++ fs, []) :=
    process_fold_spec [chunks.flatten] fs [] [] hv (by simpa using hc) (by decide)
  rw [h1, h2]

/-- Witness for C2: the S2 frame delivered in two chunks decodes identically
to the frame delivered whole. -/
theorem c2_chunking_independence_witness :
    (∀ f ∈ [BinaryMessage.mk 0xc5c3 2 3 4 [0x31, 0x32, 0x33]], ValidFrame f) ∧
      ([[0xc5, 0xc3, 0x02, 0x03], [0x03, 0x00, 0x04, 0x00, 0x31, 0x32, 0x33, 0xd5]] :
          List (List Nat)).flatten =
        (([BinaryMessage.mk 0xc5c3 2 3 4 [0x31, 0x32, 0x33]].map
          BinaryMessage.to_binary)).flatten ∧
      process_chunks [[0xc5, 0xc3, 0x02, 0x03], [0x03, 0x00, 0x04, 0x00, 0x31, 0x32, 0x33, 0xd5]] =
        process_chunks [([[0xc5, 0xc3, 0x02, 0x03],
          [0x03, 0x00, 0x04, 0x00, 0x31, 0x32, 0x33, 0xd5]] : List (List Nat)).flatten] := by
  refine ⟨?_, ?_, ?_⟩
  · intro f hf
    simp only [List.mem_singleton] at hf
    subst hf
    exact ⟨by decide, by decide, by decide, by decide, by decide⟩
  · decide
  · exact c2_chunking_independence [BinaryMessage.mk 0xc5c3 2 3 4 [0x31, 0x32, 0x33]] _
      (by intro f hf
          simp only [List.mem_singleton] at hf
          subst hf
          exact ⟨by decide, by decide, by decide, by decide, by decide⟩)
      (by decide)

/-! ### Codec round-trip (C5): byte-level helpers -/

theorem leVal_nil : leVal [] = 0 := rfl

theorem leVal_cons (b : Nat) (bs : List Nat) : leVal (b :: bs) = b + 256 * leVal bs := by
  simp [leVal]

theorem leBytes_length : ∀ (k n : Nat), (leBytes k n).length = k := by
  intro k
  induction k with
  | zero => intro n; rfl
  | succ k ih => intro n; rw [leBytes]; simp [ih]

theorem leVal_leBytes : ∀ (k n : Nat), n < 2 ^ (8 * k) → leVal (leBytes k n) = n := by
  intro k
  induction k with
  | zero =>
    intro n h
    norm_num at h
    simp [leBytes, leVal, h]
  | succ k ih =>
    intro n h
    have h256 : (2 : Nat) ^ (8 * (k + 1)) = 2 ^ (8 * k) * 256 := by
      rw [Nat.mul_succ, pow_add]
      norm_num
    rw [h256] at h
    have hdiv : n / 256 < 2 ^ (8 * k) := by omega
    rw [leBytes, leVal_cons, ih _ hdiv]
    omega

theorem unpack_from_append (pre bs post : List Nat) (k : Nat) (hk : bs.length = k) :
    unpack_from (pre ++ (bs ++ post)) pre.length k = .ok (leVal bs) := by
  subst hk
  rw [unpack_from,
    if_pos (by simp only [List.length_append]; omega),
    List.drop_left, List.take_left]

/-- Reading a two-byte little-endian length field written by the encoder. -/
theorem unpack_from_leBytes2 (pre post : List Nat) (n : Nat) (hn : n < 65536) :
    unpack_from (pre ++ ((leBytes 2 n ++ post))) pre.length 2 = .ok n := by
  rw [unpack_from_append pre (leBytes 2 n) post 2 (leBytes_length 2 n)]
  rw [leVal_leBytes 2 n (by norm_num; omega)]

/-- The decoder's field arithmetic composed with `uuid.UUID(fields = ...)`
reproduces the 16 bytes the encoder emitted (explicit-byte form). -/
theorem uuid_fields_bytes (b0 b1 b2 b3 b4 b5 b6 b7 b8 b9 b10 b11 b12 b13 b14 b15 : Nat)
    (h0 : b0 < 256) (h1 : b1 < 256) (h2 : b2 < 256) (h3 : b3 < 256)
    (h4 : b4 < 256) (h5 : b5 < 256) (h6 : b6 < 256) (h7 : b7 < 256)
    (h8 : b8 < 256) (h9 : b9 < 256) (h10 : b10 < 256) (h11 : b11 < 256)
    (h12 : b12 < 256) (h13 : b13 < 256) (h14 : b14 < 256) (h15 : b15 < 256) :
    uuid_bytes_of_fields
      ((b0 <<< 24) ||| (b1 <<< 16) ||| (b2 <<< 8) ||| b3)
      ((b4 <<< 8) ||| b5)
      ((b6 <<< 8) ||| b7)
      b8 b9
      ((b10 <<< 40) ||| (b11 <<< 32) ||| (b12 <<< 24) ||| (b13 <<< 16) |||
        (b14 <<< 8) ||| b15) =
      [b0, b1, b2, b3, b4, b5, b6, b7, b8, b9, b10, b11, b12, b13, b14, b15] := by
  have s1 : (b0 <<< 24) ||| (b1 <<< 16) = b0 * 2 ^ 24 + b1 * 2 ^ 16 := by
    rw [Nat.shiftLeft_eq, Nat.shiftLeft_eq]
    exact lor_eq_add 24 ⟨b0, by ring⟩ (by norm_num; omega)
  have s2 : (b0 <<< 24) ||| (b1 <<< 16) ||| (b2 <<< 8) =
      b0 * 2 ^ 24 + b1 * 2 ^ 16 + b2 * 2 ^ 8 := by
    rw [s1, Nat.shiftLeft_eq]
    exact lor_eq_add 16 ⟨b0 * 2 ^ 8 + b1, by ring⟩ (by norm_num; omega)
  have etl : (b0 <<< 24) ||| (b1 <<< 16) ||| (b2 <<< 8) ||| b3 =
      b0 * 2 ^ 24 + b1 * 2 ^ 16 + b2 * 2 ^ 8 + b3 := by
    rw [s2]
    exact lor_eq_add 8 ⟨b0 * 2 ^ 16 + b1 * 2 ^ 8 + b2, by ring⟩ (by norm_num; omega)
  have etm : (b4 <<< 8) ||| b5 = b4 * 2 ^ 8 + b5 := by
    rw [Nat.shiftLeft_eq]
    exact lor_eq_add 8 ⟨b4, by ring⟩ (by norm_num; omega)
  have eth : (b6 <<< 8) ||| b7 = b6 * 2 ^ 8 + b7 := by
    rw [Nat.shiftLeft_eq]
    exact lor_eq_add 8 ⟨b6, by ring⟩ (by norm_num; omega)
  have n1 : (b10 <<< 40) ||| (b11 <<< 32) = b10 * 2 ^ 40 + b11 * 2 ^ 32 := by
    rw [Nat.shiftLeft_eq, Nat.shiftLeft_eq]
    exact lor_eq_add 40 ⟨b10, by ring⟩ (by norm_num; omega)
  have n2 : (b10 <<< 40) ||| (b11 <<< 32) ||| (b12 <<< 24) =
      b10 * 2 ^ 40 + b11 * 2 ^ 32 + b12 * 2 ^ 24 := by
    rw [n1, Nat.shiftLeft_eq]
    exact lor_eq_add 32 ⟨b10 * 2 ^ 8 + b11, by ring⟩ (by norm_num; omega)
  have n3 : (b10 <<< 40) ||| (b11 <<< 32) ||| (b12 <<< 24) ||| (b13 <<< 16) =
      b10 * 2 ^ 40 + b11 * 2 ^ 32 + b12 * 2 ^ 24 + b13 * 2 ^ 16 := by
    rw [n2, Nat.shiftLeft_eq]
    exact lor_eq_add 24 ⟨b10 * 2 ^ 16 + b11 * 2 ^ 8 + b12, by ring⟩ (by norm_num; omega)
  have n4 : (b10 <<< 40) ||| (b11 <<< 32) ||| (b12 <<< 24) ||| (b13 <<< 16) |||
      (b14 <<< 8) =
      b10 * 2 ^ 40 + b11 * 2 ^ 32 + b12 * 2 ^ 24 + b13 * 2 ^ 16 + b14 * 2 ^ 8 := by
    rw [n3, Nat.shiftLeft_eq]
    exact lor_eq_add 16 ⟨b10 * 2 ^ 24 + b11 * 2 ^ 16 + b12 * 2 ^ 8 + b13, by ring⟩
      (by norm_num; omega)
  have end' : (b10 <<< 40) ||| (b11 <<< 32) ||| (b12 <<< 24) ||| (b13 <<< 16) |||
      (b14 <<< 8) ||| b15 =
      b10 * 2 ^ 40 + b11 * 2 ^ 32 + b12 * 2 ^ 24 + b13 * 2 ^ 16 + b14 * 2 ^ 8 + b15 := by
    rw [n4]
    exact lor_eq_add 8 ⟨b10 * 2 ^ 32 + b11 * 2 ^ 24 + b12 * 2 ^ 16 + b13 * 2 ^ 8 + b14,
      by ring⟩ (by norm_num; omega)
  rw [etl, etm, eth, end']
  simp only [uuid_bytes_of_fields, beBytes, leBytes, List.reverse_cons, List.reverse_nil,
    List.nil_append, List.cons_append, List.append_assoc, List.singleton_append,
    List.cons.injEq, and_true]
  norm_num
  omega

theorem getD_eq_getElem_of_lt (l : List Nat) (i : Nat) (h : i < l.length) :
    l.getD i 0 = l[i] := by
  simp [List.getD_eq_getElem?_getD, List.getElem?_eq_getElem h]

theorem list_eq_of_length_16 (bs : List Nat) (h : bs.length = 16) :
    bs = [bs.getD 0 0, bs.getD 1 0, bs.getD 2 0, bs.getD 3 0, bs.getD 4 0, bs.getD 5 0,
      bs.getD 6 0, bs.getD 7 0, bs.getD 8 0, bs.getD 9 0, bs.getD 10 0, bs.getD 11 0,
      bs.getD 12 0, bs.getD 13 0, bs.getD 14 0, bs.getD 15 0] := by
  apply List.ext_getElem
  · simp [h]
  · intro i h1 h2
    rw [h] at h1
    interval_cases i <;>
      · simp only [List.getElem_cons_zero, List.getElem_cons_succ]
        exact (getD_eq_getElem_of_lt _ _ (by omega)).symm

/-- The `Guid` decode branch reconstructs exactly the 16 bytes read. -/
theorem guid_decode_bytes (bs : List Nat) (hlen : bs.length = 16)
    (hb : ∀ b ∈ bs, b < 256) :
    uuid_bytes_of_fields
      ((bs.getD 0 0 <<< 24) ||| (bs.getD 1 0 <<< 16) ||| (bs.getD 2 0 <<< 8) ||| bs.getD 3 0)
      ((bs.getD 4 0 <<< 8) ||| bs.getD 5 0)
      ((bs.getD 6 0 <<< 8) ||| bs.getD 7 0)
      (bs.getD 8 0) (bs.getD 9 0)
      ((bs.getD 10 0 <<< 40) ||| (bs.getD 11 0 <<< 32) ||| (bs.getD 12 0 <<< 24) |||
        (bs.getD 13 0 <<< 16) ||| (bs.getD 14 0 <<< 8) ||| bs.getD 15 0) = bs := by
  have hlt : ∀ i, i < 16 → bs.getD i 0 < 256 := by
    intro i hi
    rw [getD_eq_getElem_of_lt bs i (by omega)]
    exact hb _ (List.getElem_mem _)
  rw [uuid_fields_bytes _ _ _ _ _ _ _ _ _ _ _ _ _ _ _ _
    (hlt 0 (by norm_num)) (hlt 1 (by norm_num)) (hlt 2 (by norm_num)) (hlt 3 (by norm_num))
    (hlt 4 (by norm_num)) (hlt 5 (by norm_num)) (hlt 6 (by norm_num)) (hlt 7 (by norm_num))
    (hlt 8 (by norm_num)) (hlt 9 (by norm_num)) (hlt 10 (by norm_num)) (hlt 11 (by norm_num))
    (hlt 12 (by norm_num)) (hlt 13 (by norm_num)) (hlt 14 (by norm_num)) (hlt 15 (by norm_num))]
  exact (list_eq_of_length_16 bs hlen).symm

mutual

/-- Round trip of a single property: serializing a conformant field value
succeeds, and decoding it back at any offset recovers the value and
consumes exactly the bytes produced. -/
theorem roundtrip_prop (t : FieldTy) (v : BinValue) (pre post : List Nat)
    (h : conforms_prop t v) :
    ∃ bs, serialize_prop t v = .ok bs ∧
      deserialize_prop (pre ++ (bs ++ post)) t pre.length =
        .ok (v, pre.length + bs.length) := by
  cases t with
  | Null =>
    cases v
    case vNull =>
      refine ⟨[], ?_, ?_⟩
      · simp [serialize_prop]
      · simp [deserialize_prop]
    all_goals simp [conforms_prop] at h
  | Byte =>
    cases v
    case vNat n =>
      simp only [conforms_prop] at h
      refine ⟨leBytes 1 n, ?_, ?_⟩
      · simp only [serialize_prop, packUnsigned]
        rw [if_pos (by norm_num; omega)]
      · simp only [deserialize_prop]
        rw [unpack_from_append pre (leBytes 1 n) post 1 (leBytes_length 1 n),
          leVal_leBytes 1 n (by norm_num; omega), leBytes_length]
    all_goals simp [conforms_prop] at h
  | Word =>
    cases v
    case vNat n =>
      simp only [conforms_prop] at h
      refine ⟨leBytes 2 n, ?_, ?_⟩
      · simp only [serialize_prop, packUnsigned]
        rw [if_pos (by norm_num; omega)]
      · simp only [deserialize_prop]
        rw [unpack_from_append pre (leBytes 2 n) post 2 (leBytes_length 2 n),
          leVal_leBytes 2 n (by norm_num; omega), leBytes_length]
    all_goals simp [conforms_prop] at h
  | Dword =>
    cases v
    case vNat n =>
      simp only [conforms_prop] at h
      refine ⟨leBytes 4 n, ?_, ?_⟩
      · simp only [serialize_prop, packUnsigned]
        rw [if_pos (by norm_num; omega)]
      · simp only [deserialize_prop]
        rw [unpack_from_append pre (leBytes 4 n) post 4 (leBytes_length 4 n),
          leVal_leBytes 4 n (by norm_num; omega), leBytes_length]
    all_goals simp [conforms_prop] at h
  | Qword =>
    cases v
    case vNat n =>
      simp only [conforms_prop] at h
      refine ⟨leBytes 8 n, ?_, ?_⟩
      · simp only [serialize_prop, packUnsigned]
        rw [if_pos (by norm_num; omega)]
      · simp only [deserialize_prop]
        rw [unpack_from_append pre (leBytes 8 n) post 8 (leBytes_length 8 n),
          leVal_leBytes 8 n (by norm_num; omega), leBytes_length]
    all_goals simp [conforms_prop] at h
  | SignedByte =>
    cases v
    case vInt i =>
      simp only [conforms_prop] at h
      refine ⟨leBytes 1 (i % (2 ^ (8 * 1) : Int)).toNat, ?_, ?_⟩
      · simp only [serialize_prop, packSigned]
        rw [if_pos (by norm_num; omega)]
      · simp only [deserialize_prop]
        rw [unpack_from_append pre _ post 1 (leBytes_length 1 _),
          leVal_leBytes 1 _ (by norm_num; omega), leBytes_length]
        dsimp only
        have hif : (if 2 ^ 7 ≤ (i % (2 ^ (8 * 1) : Int)).toNat then
            (((i % (2 ^ (8 * 1) : Int)).toNat : Int)) - 2 ^ 8 else
            (((i % (2 ^ (8 * 1) : Int)).toNat : Int))) = i := by
          split_ifs <;> norm_num at * <;> omega
        rw [hif]
    all_goals simp [conforms_prop] at h
  | SignedWord =>
    cases v
    case vInt i =>
      simp only [conforms_prop] at h
      refine ⟨leBytes 2 (i % (2 ^ (8 * 2) : Int)).toNat, ?_, ?_⟩
      · simp only [serialize_prop, packSigned]
        rw [if_pos (by norm_num; omega)]
      · simp only [deserialize_prop]
        rw [unpack_from_append pre _ post 2 (leBytes_length 2 _),
          leVal_leBytes 2 _ (by norm_num; omega), leBytes_length]
        dsimp only
        have hif : (if 2 ^ 15 ≤ (i % (2 ^ (8 * 2) : Int)).toNat then
            (((i % (2 ^ (8 * 2) : Int)).toNat : Int)) - 2 ^ 16 else
            (((i % (2 ^ (8 * 2) : Int)).toNat : Int))) = i := by
          split_ifs <;> norm_num at * <;> omega
        rw [hif]
    all_goals simp [conforms_prop] at h
  | SignedDword =>
    cases v
    case vInt i =>
      simp only [conforms_prop] at h
      refine ⟨leBytes 4 (i % (2 ^ (8 * 4) : Int)).toNat, ?_, ?_⟩
      · simp only [serialize_prop, packSigned]
        rw [if_pos (by norm_num; omega)]
      · simp only [deserialize_prop]
        rw [unpack_from_append pre _ post 4 (leBytes_length 4 _),
          leVal_leBytes 4 _ (by norm_num; omega), leBytes_length]
        dsimp only
        have hif : (if 2 ^ 31 ≤ (i % (2 ^ (8 * 4) : Int)).toNat then
            (((i % (2 ^ (8 * 4) : Int)).toNat : Int)) - 2 ^ 32 else
            (((i % (2 ^ (8 * 4) : Int)).toNat : Int))) = i := by
          split_ifs <;> norm_num at * <;> omega
        rw [hif]
    all_goals simp [conforms_prop] at h
  | SignedQword =>
    cases v
    case vInt i =>
      simp only [conforms_prop] at h
      refine ⟨leBytes 8 (i % (2 ^ (8 * 8) : Int)).toNat, ?_, ?_⟩
      · simp only [serialize_prop, packSigned]
        rw [if_pos (by norm_num; omega)]
      · simp only [deserialize_prop]
        rw [unpack_from_append pre _ post 8 (leBytes_length 8 _),
          leVal_leBytes 8 _ (by norm_num; omega), leBytes_length]
        dsimp only
        have hif : (if 2 ^ 63 ≤ (i % (2 ^ (8 * 8) : Int)).toNat then
            (((i % (2 ^ (8 * 8) : Int)).toNat : Int)) - 2 ^ 64 else
            (((i % (2 ^ (8 * 8) : Int)).toNat : Int))) = i := by
          split_ifs <;> norm_num at * <;> omega
        rw [hif]
    all_goals simp [conforms_prop] at h
  | Boolean =>
    cases v
    case vBool b =>
      refine ⟨[if b then 1 else 0], ?_, ?_⟩
      · simp [serialize_prop]
      · simp only [deserialize_prop]
        rw [unpack_from_append pre [if b then 1 else 0] post 1 (by simp)]
        cases b <;> simp [leVal]
    all_goals simp [conforms_prop] at h
  | Guid =>
    cases v
    case vGuid bs =>
      simp only [conforms_prop] at h
      obtain ⟨hlen, hbb⟩ := h
      refine ⟨bs, ?_, ?_⟩
      · simp [serialize_prop]
      · simp only [deserialize_prop]
        rw [if_pos (by simp only [List.length_append]; omega)]
        have hv : ((pre ++ (bs ++ post)).drop pre.length).take 16 = bs := by
          rw [List.drop_left, ← hlen, List.take_left]
        simp only [hv]
        rw [guid_decode_bytes bs hlen hbb, hlen]
    all_goals simp [conforms_prop] at h
  | String =>
    cases v
    case vStr bs =>
      simp only [conforms_prop] at h
      obtain ⟨hlen, -, hutf⟩ := h
      refine ⟨leBytes 2 bs.length ++ bs, ?_, ?_⟩
      · simp only [serialize_prop]
        rw [if_pos hlen]
      · simp only [deserialize_prop]
        rw [show (leBytes 2 bs.length ++ bs) ++ post = leBytes 2 bs.length ++ (bs ++ post) by
          simp [List.append_assoc]]
        rw [unpack_from_leBytes2 pre (bs ++ post) bs.length hlen]
        dsimp only
        have hsl : ((pre ++ (leBytes 2 bs.length ++ (bs ++ post))).drop
            (pre.length + 2)).take bs.length = bs := by
          rw [show pre ++ (leBytes 2 bs.length ++ (bs ++ post)) =
              (pre ++ leBytes 2 bs.length) ++ (bs ++ post) by simp [List.append_assoc]]
          rw [show pre.length + 2 = (pre ++ leBytes 2 bs.length).length by
            simp [leBytes_length]]
          rw [List.drop_left, List.take_left]
        simp only [hsl]
        rw [if_pos hutf]
        rw [show pre.length + 2 + bs.length =
          pre.length + (leBytes 2 bs.length ++ bs).length by simp [leBytes_length]; omega]
    all_goals simp [conforms_prop] at h
  | Binary =>
    cases v
    case vStr bs =>
      simp only [conforms_prop] at h
      obtain ⟨hlen, hbb⟩ := h
      refine ⟨leBytes 2 bs.length ++ bs, ?_, ?_⟩
      · simp only [serialize_prop]
        rw [if_pos hlen]
      · simp only [deserialize_prop]
        rw [show (leBytes 2 bs.length ++ bs) ++ post = leBytes 2 bs.length ++ (bs ++ post) by
          simp [List.append_assoc]]
        rw [unpack_from_leBytes2 pre (bs ++ post) bs.length hlen]
        have hsl : ((pre ++ (leBytes 2 bs.length ++ (bs ++ post))).drop
            (pre.length + 2)).take bs.length = bs := by
          rw [show pre ++ (leBytes 2 bs.length ++ (bs ++ post)) =
              (pre ++ leBytes 2 bs.length) ++ (bs ++ post) by simp [List.append_assoc]]
          rw [show pre.length + 2 = (pre ++ leBytes 2 bs.length).length by
            simp [leBytes_length]]
          rw [List.drop_left, List.take_left]
        simp only [hsl]
        rw [show pre.length + 2 + bs.length =
          pre.length + (leBytes 2 bs.length ++ bs).length by simp [leBytes_length]; omega]
    all_goals simp [conforms_prop] at h
  | Array es =>
    cases v
    case vList elems =>
      simp only [conforms_prop] at h
      obtain ⟨hcnt, hconf⟩ := h
      obtain ⟨body, hsl, hdl⟩ :=
        roundtrip_elems es elems (pre ++ leBytes 2 elems.length) post hconf
      refine ⟨leBytes 2 elems.length ++ body, ?_, ?_⟩
      · simp only [serialize_prop, serialize]
        rw [if_pos hcnt, hsl]
      · simp only [deserialize_prop]
        rw [show (leBytes 2 elems.length ++ body) ++ post =
            leBytes 2 elems.length ++ (body ++ post) by simp [List.append_assoc]]
        rw [unpack_from_leBytes2 pre (body ++ post) elems.length hcnt]
        dsimp only
        rw [show pre ++ (leBytes 2 elems.length ++ (body ++ post)) =
            (pre ++ leBytes 2 elems.length) ++ (body ++ post) by simp [List.append_assoc]]
        rw [show pre.length + 2 = (pre ++ leBytes 2 elems.length).length by
          simp [leBytes_length]]
        rw [hdl]
        rw [show (pre ++ leBytes 2 elems.length).length + body.length =
          pre.length + (leBytes 2 elems.length ++ body).length by
            simp [leBytes_length]; omega]
    all_goals simp [conforms_prop] at h
termination_by sizeOf v

/-- Round trip of a record: the properties of `__binary_struct__` in order. -/
theorem roundtrip_struct (ts : List FieldTy) (vs : List BinValue) (pre post : List Nat)
    (h : conforms_struct ts vs) :
    ∃ bs, serialize_struct ts vs = .ok bs ∧
      deserialize_struct (pre ++ (bs ++ post)) ts pre.length =
        .ok (vs, pre.length + bs.length) := by
  cases ts with
  | nil =>
    cases vs with
    | nil =>
      refine ⟨[], ?_, ?_⟩
      · simp [serialize_struct]
      · simp [deserialize_struct]
    | cons v vs => simp [conforms_struct] at h
  | cons t ts =>
    cases vs with
    | nil => simp [conforms_struct] at h
    | cons v vs =>
      simp only [conforms_struct] at h
      obtain ⟨hp, hs⟩ := h
      obtain ⟨b1, hps, -⟩ := roundtrip_prop t v [] [] hp
      obtain ⟨brest, hss, hsd⟩ := roundtrip_struct ts vs (pre ++ b1) post hs
      obtain ⟨b1', hps', hpd⟩ := roundtrip_prop t v pre (brest ++ post) hp
      rw [hps] at hps'
      injection hps' with hb1
      subst hb1
      refine ⟨b1 ++ brest, ?_, ?_⟩
      · simp only [serialize_struct]
        rw [hps, hss]
      · simp only [deserialize_struct]
        rw [show (b1 ++ brest) ++ post = b1 ++ (brest ++ post) by simp [List.append_assoc]]
        rw [hpd]
        dsimp only
        rw [show pre ++ (b1 ++ (brest ++ post)) = (pre ++ b1) ++ (brest ++ post) by
          simp [List.append_assoc]]
        rw [show pre.length + b1.length = (pre ++ b1).length by simp]
        rw [hsd]
        rw [show (pre ++ b1).length + brest.length = pre.length + (b1 ++ brest).length by
          simp [List.length_append]; omega]
termination_by sizeOf vs

/-- Round trip of the elements of an array: each element is a record of the
element class, decoded back as such. -/
theorem roundtrip_elems (es : List FieldTy) (elems : List BinValue) (pre post : List Nat)
    (h : conforms_elems es elems) :
    ∃ bs, serialize_list elems = .ok bs ∧
      deserialize_elems (pre ++ (bs ++ post)) es elems.length pre.length =
        .ok (elems, pre.length + bs.length) := by
  cases elems with
  | nil =>
    refine ⟨[], ?_, ?_⟩
    · simp [serialize_list]
    · simp [deserialize_elems]
  | cons e rest =>
    cases e
    case vObj es' fields =>
      simp only [conforms_elems] at h
      obtain ⟨heq, hstruct, hrest⟩ := h
      have heq2 : es = es' := heq.symm
      subst heq2
      obtain ⟨b1, hss0, -⟩ := roundtrip_struct es fields [] [] hstruct
      obtain ⟨brest, hsr, hdr⟩ := roundtrip_elems es rest (pre ++ b1) post hrest
      obtain ⟨b1', hss', hsd⟩ := roundtrip_struct es fields pre (brest ++ post) hstruct
      rw [hss0] at hss'
      injection hss' with hb1
      subst hb1
      refine ⟨b1 ++ brest, ?_, ?_⟩
      · simp only [serialize_list, serialize]
        rw [hss0, hsr]
      · simp only [List.length_cons]
        simp only [deserialize_elems]
        rw [show (b1 ++ brest) ++ post = b1 ++ (brest ++ post) by simp [List.append_assoc]]
        rw [hsd]
        dsimp only
        rw [show pre ++ (b1 ++ (brest ++ post)) = (pre ++ b1) ++ (brest ++ post) by
          simp [List.append_assoc]]
        rw [show pre.length + b1.length = (pre ++ b1).length by simp]
        rw [hdr]
        rw [show (pre ++ b1).length + brest.length = pre.length + (b1 ++ brest).length by
          simp [List.length_append]; omega]
    all_goals simp [conforms_elems] at h
termination_by sizeOf elems

end

/-- C5: for every record schema built from the supported (non-floating)
type tags and every conformant value, deserializing the serialization
recovers the value, and the deserializer consumes exactly as many bytes as
`serialize` produced.  The `Guid` case goes through the decoder's field
arithmetic (`guid_decode_bytes`). -/
theorem c5_codec_roundtrip (S : List FieldTy) (vs : List BinValue)
    (h : conforms_struct S vs) :
    ∃ bs, serialize (BinValue.vObj S vs) = .ok bs ∧
      deserialize bs S = .ok (vs, bs.length) := by
  obtain ⟨bs, hs, hd⟩ := roundtrip_struct S vs [] [] h
  refine ⟨bs, ?_, ?_⟩
  · simp only [serialize]
    exact hs
  · rw [deserialize]
    simpa using hd

/-- Witness for C5 at the fixture of scenario S5 of the spec (byte, word,
dword, two booleans, the string "abc", an array of two signed words, and
the fixture UUID twice). -/
theorem c5_codec_roundtrip_witness :
    conforms_struct
      [FieldTy.Byte, FieldTy.Word, FieldTy.Dword, FieldTy.Boolean, FieldTy.Boolean,
        FieldTy.String, FieldTy.Array [FieldTy.SignedWord], FieldTy.Guid, FieldTy.Guid]
      [BinValue.vNat 0xab, BinValue.vNat 0xabcd, BinValue.vNat 0x12345678,
        BinValue.vBool true, BinValue.vBool false, BinValue.vStr [0x61, 0x62, 0x63],
        BinValue.vList [BinValue.vObj [FieldTy.SignedWord] [BinValue.vInt (-1024)],
          BinValue.vObj [FieldTy.SignedWord] [BinValue.vInt (-8192)]],
        BinValue.vGuid [0xfa, 0x8a, 0x9d, 0x6e, 0x65, 0x55, 0x11, 0xe2, 0x89, 0xb8,
          0xe0, 0xcb, 0x4e, 0xb9, 0x21, 0x29],
        BinValue.vGuid [0xfa, 0x8a, 0x9d, 0x6e, 0x65, 0x55, 0x11, 0xe2, 0x89, 0xb8,
          0xe0, 0xcb, 0x4e, 0xb9, 0x21, 0x29]] ∧
    ∃ bs, serialize (BinValue.vObj
      [FieldTy.Byte, FieldTy.Word, FieldTy.Dword, FieldTy.Boolean, FieldTy.Boolean,
        FieldTy.String, FieldTy.Array [FieldTy.SignedWord], FieldTy.Guid, FieldTy.Guid]
      [BinValue.vNat 0xab, BinValue.vNat 0xabcd, BinValue.vNat 0x12345678,
        BinValue.vBool true, BinValue.vBool false, BinValue.vStr [0x61, 0x62, 0x63],
        BinValue.vList [BinValue.vObj [FieldTy.SignedWord] [BinValue.vInt (-1024)],
          BinValue.vObj [FieldTy.SignedWord] [BinValue.vInt (-8192)]],
        BinValue.vGuid [0xfa, 0x8a, 0x9d, 0x6e, 0x65, 0x55, 0x11, 0xe2, 0x89, 0xb8,
          0xe0, 0xcb, 0x4e, 0xb9, 0x21, 0x29],
        BinValue.vGuid [0xfa, 0x8a, 0x9d, 0x6e, 0x65, 0x55, 0x11, 0xe2, 0x89, 0xb8,
          0xe0, 0xcb, 0x4e, 0xb9, 0x21, 0x29]]) = .ok bs ∧
      deserialize bs
        [FieldTy.Byte, FieldTy.Word, FieldTy.Dword, FieldTy.Boolean, FieldTy.Boolean,
          FieldTy.String, FieldTy.Array [FieldTy.SignedWord], FieldTy.Guid, FieldTy.Guid] =
        .ok ([BinValue.vNat 0xab, BinValue.vNat 0xabcd, BinValue.vNat 0x12345678,
          BinValue.vBool true, BinValue.vBool false, BinValue.vStr [0x61, 0x62, 0x63],
          BinValue.vList [BinValue.vObj [FieldTy.SignedWord] [BinValue.vInt (-1024)],
            BinValue.vObj [FieldTy.SignedWord] [BinValue.vInt (-8192)]],
          BinValue.vGuid [0xfa, 0x8a, 0x9d, 0x6e, 0x65, 0x55, 0x11, 0xe2, 0x89, 0xb8,
            0xe0, 0xcb, 0x4e, 0xb9, 0x21, 0x29],
          BinValue.vGuid [0xfa, 0x8a, 0x9d, 0x6e, 0x65, 0x55, 0x11, 0xe2, 0x89, 0xb8,
            0xe0, 0xcb, 0x4e, 0xb9, 0x21, 0x29]], bs.length) := by
  have hconf : conforms_struct
      [FieldTy.Byte, FieldTy.Word, FieldTy.Dword, FieldTy.Boolean, FieldTy.Boolean,
        FieldTy.String, FieldTy.Array [FieldTy.SignedWord], FieldTy.Guid, FieldTy.Guid]
      [BinValue.vNat 0xab, BinValue.vNat 0xabcd, BinValue.vNat 0x12345678,
        BinValue.vBool true, BinValue.vBool false, BinValue.vStr [0x61, 0x62, 0x63],
        BinValue.vList [BinValue.vObj [FieldTy.SignedWord] [BinValue.vInt (-1024)],
          BinValue.vObj [FieldTy.SignedWord] [BinValue.vInt (-8192)]],
        BinValue.vGuid [0xfa, 0x8a, 0x9d, 0x6e, 0x65, 0x55, 0x11, 0xe2, 0x89, 0xb8,
          0xe0, 0xcb, 0x4e, 0xb9, 0x21, 0x29],
        BinValue.vGuid [0xfa, 0x8a, 0x9d, 0x6e, 0x65, 0x55, 0x11, 0xe2, 0x89, 0xb8,
          0xe0, 0xcb, 0x4e, 0xb9, 0x21, 0x29]] := by
    simp [conforms_struct, conforms_prop, conforms_elems] <;> decide
  exact ⟨hconf, c5_codec_roundtrip _ _ hconf⟩

/-! ### Serialization errors (C7) -/

/-- C7: serialization failures raise `NameError`, not
`BinarySerializationError`.  Serializing an object with no binary structure
(the integer 42), or a record whose `Guid` property holds a 3-byte
sequence, hits a `raise BinarySerializationError(...)` statement whose
broken constructor (`BinaryFormatterError.__init__` references the
undefined name `BinarySerializerError`) actually raises `NameError`. -/
theorem c7_nameerror_instead_of_serialization_error :
    serialize (BinValue.vNat 42) = .error .nameError ∧
      serialize (BinValue.vObj [FieldTy.Guid] [BinValue.vStr [1, 2, 3]]) =
        .error .nameError ∧
      PyExc.nameError ≠ PyExc.serializationError := by
  refine ⟨?_, ?_, by decide⟩
  · simp [serialize]
  · simp [serialize, serialize_struct, serialize_prop]

/-! ### Dynamic schema synthesis (C8) -/

/-- A command with an `Array`-typed parameter makes `generate` raise. -/
theorem generate_params_array (ps : List Parameters)
    (h : ∃ p ∈ ps, p.type = DataTypes.Array) :
    generate_params ps = .error .notImplementedError := by
  induction ps with
  | nil => simp at h
  | cons p rest ih =>
    rw [generate_params]
    by_cases hp : p.type = DataTypes.Array
    · rw [if_pos hp]
    · rw [if_neg hp]
      obtain ⟨q, hq, hqt⟩ := h
      simp only [List.mem_cons] at hq
      rcases hq with rfl | hq
      · exact absurd hqt hp
      · rw [ih ⟨q, hq, hqt⟩]

/-- C8 counterexample: a registration whose second command has an `Array`
parameter but reuses the name of the first command is skipped without
synthesis, so registration succeeds — no `UnsupportedSchema`
(`NotImplementedError`) is raised, contradicting the claim as stated. -/
theorem c8_duplicate_name_array_command_registers :
    handle_registration_request []
        [Command.mk 0 "X" [], Command.mk 1 "X" [(⟨DataTypes.Array, "p"⟩ : Parameters)]] =
      .ok [("X", [])] ∧
      (∃ c ∈ [Command.mk 0 "X" [], Command.mk 1 "X" [(⟨DataTypes.Array, "p"⟩ : Parameters)]],
        ∃ p ∈ c.parameters, p.type = DataTypes.Array) := by
  refine ⟨rfl, ?_⟩
  refine ⟨Command.mk 1 "X" [(⟨DataTypes.Array, "p"⟩ : Parameters)], by simp, ?_⟩
  exact ⟨(⟨DataTypes.Array, "p"⟩ : Parameters), by simp, rfl⟩

/-- C8 amended: registration fails with `NotImplementedError` (the spec's
`UnsupportedSchema`) whenever some command with an `Array`-typed parameter
is actually submitted to synthesis, i.e. its name is neither in the initial
command map nor claimed by an earlier command of the same registration. -/
theorem c8_amended_array_param_fails_when_fresh
    (cmap : List (String × List (DataTypes × String)))
    (pre post : List Command) (c : Command)
    (harr : ∃ p ∈ c.parameters, p.type = DataTypes.Array)
    (hfresh : ∀ e ∈ cmap, e.1 ≠ c.name)
    (hpre : ∀ c' ∈ pre, c'.name ≠ c.name) :
    handle_registration_request cmap (pre ++ c :: post) = .error .notImplementedError := by
  induction pre generalizing cmap with
  | nil =>
    simp only [List.nil_append]
    rw [handle_registration_request]
    have hany : cmap.any (fun e => e.1 = c.name) = false := by
      rw [List.any_eq_false]
      intro e he
      simpa using hfresh e he
    rw [hany]
    simp only [Bool.false_eq_true, if_false]
    rw [generate, generate_params_array c.parameters harr]
  | cons c' pre' ih =>
    simp only [List.cons_append]
    rw [handle_registration_request]
    by_cases hin : cmap.any (fun e => e.1 = c'.name) = true
    · rw [hin]
      simp only [if_true]
      exact ih cmap hfresh (fun x hx => hpre x (by simp [hx]))
    · rw [Bool.not_eq_true] at hin
      rw [hin]
      simp only [Bool.false_eq_true, if_false]
      cases hgen : generate c' with
      | error e =>
        cases e
        rfl
      | ok cls =>
        dsimp only
        apply ih
        · intro e he
          simp only [List.mem_append, List.mem_singleton] at he
          rcases he with he | rfl
          · exact hfresh e he
          · exact hpre c' (by simp)
        · exact fun x hx => hpre x (by simp [hx])

/-- Witness for the amended C8: a fresh registration containing a single
command with an `Array` parameter raises. -/
theorem c8_amended_witness :
    (∃ p ∈ (Command.mk 1 "Y" [(⟨DataTypes.Array, "p"⟩ : Parameters)]).parameters,
        p.type = DataTypes.Array) ∧
      handle_registration_request [] [Command.mk 1 "Y" [(⟨DataTypes.Array, "p"⟩ : Parameters)]] =
        .error .notImplementedError :=
  ⟨⟨(⟨DataTypes.Array, "p"⟩ : Parameters), by simp, rfl⟩,
    c8_amended_array_param_fails_when_fresh [] [] []
      (Command.mk 1 "Y" [(⟨DataTypes.Array, "p"⟩ : Parameters)])
      ⟨(⟨DataTypes.Array, "p"⟩ : Parameters), by simp, rfl⟩
      (by simp) (by simp)⟩

end DeviceHive
